import Mathlib

/-!
# PETScWrappers::VectorBase and VectorReference

A shallow embedding of `deal.II/lac/source/petsc_vector_base.cc`.

The adapter forwards every operation to the PETSc vector library.  The state of
one PETSc vector, as seen by the calling process, is a record: the local array,
the global size, the ownership range, the number of array views handed out by
`VecGetArray` and not yet given back by `VecRestoreArray`, and the status codes
the library is going to return to the coming calls.  Every member function is a
function from that state to an outcome (a value or an exception) together with
the state afterwards, so that the state on an exceptional exit can be inspected.

The state is a record over the type of the scalars.  The two reductions that
add up scalars, `mean_value` and `lp_norm`, are functions of an arithmetic
`Arith S` of which no law is assumed, so that the order in which the code adds
is part of what they return; `mean_value` and `lp_norm` without an arithmetic
are their instances over the exact arithmetic of the rationals, which is also
the scalar type `PetscScalar` of the other member functions.  Vector arguments
of a binary operation are objects different from the vector the member function
is called on.  The library functions `std::pow` and the formatting of a
`double` by a stream are parameters of `lp_norm` and `print`; a stream is a
record of its state and of the characters written to it.
-/

namespace PETScWrappers

/-- Scalars of the backend, over exact arithmetic. -/
abbrev PetscScalar := ℚ

/-- The class an adapter object really is, as told apart by the two
`dynamic_cast`s of the element read: `PETScWrappers::Vector` (one process),
`PETScWrappers::MPI::Vector` (partitioned), or some other derived class. -/
inductive VecKind where
  | Vector
  | MPI_Vector
  | other
  deriving DecidableEq, Repr

/-- The exceptions of the file, with the data they carry.  `OutOfBounds` is not
a C++ exception: it marks a read through a pointer that is outside the array
view, which is undefined behaviour in the source. -/
inductive Exc where
  | ExcIndexRange (index lower upper : Nat)
  | ExcPETScError (ierr : Int)
  | ExcAccessToNonlocalElement (index : Nat) (first last : Int)
  | ExcInternalError
  | ExcDimensionMismatch (a b : Nat)
  | ExcNonMatchingSizes (a b : Nat)
  | ExcStream
  | OutOfBounds
  deriving DecidableEq, Repr

/-- State of the backend vector held by a `VectorBase` (its member `vector`),
as seen by the calling process, with entries of the scalar type `S`. -/
structure VectorBaseOf (S : Type) where
  /-- which derived class the object is -/
  kind : VecKind
  /-- global number of entries, `VecGetSize` -/
  N : Nat
  /-- first global index owned by this process -/
  rstart : Int
  /-- one past the last global index owned by this process -/
  rend : Int
  /-- the local array, `VecGetLocalSize` entries -/
  array : List S
  /-- array views acquired by `VecGetArray` and not yet restored -/
  views : Nat
  /-- status codes the backend returns to the coming calls, in order; a call
  made when the list is empty succeeds (status 0) -/
  ierrs : List Int
  deriving DecidableEq, Repr

/-- The state of a `VectorBase` whose scalars are the exact rationals; the
properties that do not concern the rounding of sums are stated for it. -/
abbrev VectorBase := VectorBaseOf PetscScalar

/-- Outcome of a member function: the value or the exception, and the state of
the vector afterwards. -/
abbrev ResOf (S : Type) (α : Type) := Except Exc α × VectorBaseOf S

/-- Outcome of a member function on a vector of rationals. -/
abbrev Res (α : Type) := ResOf PetscScalar α

/-- Sequencing: an exception ends the computation, a value goes on. -/
def andThen {S α β : Type} (r : ResOf S α) (k : α → VectorBaseOf S → ResOf S β) :
    ResOf S β :=
  match r with
  | (.error e, v) => (.error e, v)
  | (.ok a, v) => k a v

/-- Modelled from the spec: the macro `AssertThrow (cond, exc)` (declared outside
src/) aborts the operation with `exc` when `cond` is false. -/
def AssertThrow {S α : Type} (cond : Bool) (exc : Exc) (v : VectorBaseOf S)
    (k : VectorBaseOf S → ResOf S α) : ResOf S α :=
  if cond then k v else (.error exc, v)

/-- Modelled from the spec: the macro `Assert (cond, exc)` (declared outside
src/) is the precondition check of the framework; the spec lists its
exceptions among the failures of the operation, so a false `cond` aborts the
operation with `exc`.  The exception object is built only when the check
fails, which is when the member calls among its arguments are made. -/
def Assert {S α : Type} (cond : Bool) (exc : VectorBaseOf S → ResOf S Exc)
    (v : VectorBaseOf S) (k : VectorBaseOf S → ResOf S α) : ResOf S α :=
  if cond then k v else andThen (exc v) fun e v => (.error e, v)

/-! ## The backend primitives (PETSc, outside src/) -/

/-- Status of the next backend call made on `v`, and the state with that status
used up.  A call with several vector operands takes the status of the vector
the member function was called on. -/
def nextStatus {S : Type} (v : VectorBaseOf S) : Int × VectorBaseOf S :=
  match v.ierrs with
  | [] => (0, v)
  | c :: cs => (c, { v with ierrs := cs })

/-- Modelled from the spec: backend primitive "get global size". -/
def VecGetSize {S : Type} (v : VectorBaseOf S) : Int × Nat × VectorBaseOf S :=
  match nextStatus v with
  | (ierr, v) => (ierr, v.N, v)

/-- Modelled from the spec: backend primitive "get local size". -/
def VecGetLocalSize {S : Type} (v : VectorBaseOf S) : Int × Nat × VectorBaseOf S :=
  match nextStatus v with
  | (ierr, v) => (ierr, v.array.length, v)

/-- Modelled from the spec: backend primitive "get ownership range
`[begin, end)` for the calling process". -/
def VecGetOwnershipRange {S : Type} (v : VectorBaseOf S) :
    Int × Int × Int × VectorBaseOf S :=
  match nextStatus v with
  | (ierr, v) => (ierr, v.rstart, v.rend, v)

/-- Modelled from the spec: backend primitive "acquire a contiguous local
buffer view".  On success one more view is outstanding and the pointer
designates the start of the local array; on failure nothing is acquired. -/
def VecGetArray {S : Type} (v : VectorBaseOf S) : Int × List S × VectorBaseOf S :=
  match nextStatus v with
  | (ierr, v) =>
    if ierr = 0 then (ierr, v.array, { v with views := v.views + 1 })
    else (ierr, [], v)

/-- Modelled from the spec: backend primitive "release a buffer view".  On
success one view less is outstanding; on failure nothing is released. -/
def VecRestoreArray {S : Type} (v : VectorBaseOf S) : Int × VectorBaseOf S :=
  match nextStatus v with
  | (ierr, v) =>
    if ierr = 0 then (ierr, { v with views := v.views - 1 })
    else (ierr, v)

/-- The value `*(ptr + off)` of a pointer into an array view; `none` outside
the view, where the read is undefined behaviour. -/
def deref (ptr : List PetscScalar) (off : Int) : Option PetscScalar :=
  if 0 ≤ off then ptr[off.toNat]? else none

/-- The conversion `static_cast<unsigned int>` of an `int` (32 bits). -/
def toUnsigned (x : Int) : Nat := (x % 2 ^ 32).toNat

/-! ## Sizes -/

/-- `VectorBase::size`. -/
def size {S : Type} (v : VectorBaseOf S) : ResOf S Nat :=
  match VecGetSize v with
  | (ierr, sz, v) =>
    AssertThrow (ierr == 0) (.ExcPETScError ierr) v fun v =>
    (.ok sz, v)

/-- `VectorBase::local_size`. -/
def local_size {S : Type} (v : VectorBaseOf S) : ResOf S Nat :=
  match VecGetLocalSize v with
  | (ierr, sz, v) =>
    AssertThrow (ierr == 0) (.ExcPETScError ierr) v fun v =>
    (.ok sz, v)

/-! ## Element read -/

/-- The proxy `internal::VectorReference`: a vector and a global index. -/
structure VectorReference where
  vector : VectorBase
  index : Nat

/-- `VectorReference::operator PetscScalar`. -/
def VectorReference.toPetscScalar (r : VectorReference) : Res PetscScalar :=
  andThen (size r.vector) fun n v =>
  Assert (r.index < n)
    (fun v => andThen (size v) fun n v => (.ok (.ExcIndexRange r.index 0 n), v)) v fun v =>
  match v.kind with
  | .Vector =>
    match VecGetArray v with
    | (ierr, ptr, v) =>
      AssertThrow (ierr == 0) (.ExcPETScError ierr) v fun v =>
      match deref ptr (r.index : Int) with
      | none => (.error .OutOfBounds, v)
      | some value =>
        match VecRestoreArray v with
        | (ierr, v) =>
          AssertThrow (ierr == 0) (.ExcPETScError ierr) v fun v =>
          (.ok value, v)
  | .MPI_Vector =>
    match VecGetOwnershipRange v with
    | (ierr, begin_, end_, v) =>
      AssertThrow (ierr == 0) (.ExcPETScError ierr) v fun v =>
      AssertThrow (decide (r.index ≥ toUnsigned begin_) && decide (r.index < toUnsigned end_))
        (.ExcAccessToNonlocalElement r.index begin_ (end_ - 1)) v fun v =>
      match VecGetArray v with
      | (ierr, ptr, v) =>
        AssertThrow (ierr == 0) (.ExcPETScError ierr) v fun v =>
        match deref ptr ((r.index : Int) - begin_) with
        | none => (.error .OutOfBounds, v)
        | some value =>
          match VecRestoreArray v with
          | (ierr, v) =>
            AssertThrow (ierr == 0) (.ExcPETScError ierr) v fun v =>
            (.ok value, v)
  | .other =>
    Assert false (fun v => (.ok .ExcInternalError, v)) v fun v =>
    (.ok (-100000000000000000000), v)

/-! ## More backend primitives: whole-vector operations -/

/-- The nonzero status the model gives to a backend call on operands of
different layout (the library's "arguments are incompatible"). -/
def PETSC_ERR_ARG_INCOMP : Int := 75

/-- Two backend vectors have the same layout: the same global size and the same
number of local entries. -/
def sameLayout (x y : VectorBase) : Bool :=
  x.N == y.N && x.array.length == y.array.length

/-- The truth values of the backend. -/
inductive PetscTruth where
  | PETSC_FALSE
  | PETSC_TRUE
  deriving DecidableEq, Repr

/-- Modelled from the spec: the common shape of a backend call that overwrites
the array of `y` with operands `xs`.  The status is the next one of `y`; the
spec's `BackendError(code)` is "any nonzero status from a backend call", and a
call that fails leaves `y` as it is.  What the library does with operands of
another layout than `y` is said neither by the spec nor by the source: in this
model such a call updates nothing and answers a nonzero status.  The properties
about arguments of a different size rest on the checks and throws of the
member functions only, not on this choice. -/
def backendUpdate (xs : List VectorBase) (y : VectorBase)
    (f : List PetscScalar → List PetscScalar) : Int × VectorBase :=
  match nextStatus y with
  | (ierr, y) =>
    if ierr ≠ 0 then (ierr, y)
    else if xs.all (fun x => sameLayout x y) then (0, { y with array := f y.array })
    else (PETSC_ERR_ARG_INCOMP, y)

/-- Modelled from the spec: backend primitive "scalar fill", `VecSet (&s, x)`. -/
def VecSet (s : PetscScalar) (x : VectorBase) : Int × VectorBase :=
  backendUpdate [] x fun xs => xs.map fun _ => s

/-- Modelled from the spec: backend primitive "scale", `VecScale (&a, x)`. -/
def VecScale (a : PetscScalar) (x : VectorBase) : Int × VectorBase :=
  backendUpdate [] x fun xs => xs.map fun xi => a * xi

/-- Modelled from the spec: backend primitive "shift", `VecShift (&s, x)`. -/
def VecShift (s : PetscScalar) (x : VectorBase) : Int × VectorBase :=
  backendUpdate [] x fun xs => xs.map fun xi => xi + s

/-- Modelled from the spec: backend primitive "axpy", `VecAXPY (&a, x, y)`:
`y = a*x + y`. -/
def VecAXPY (a : PetscScalar) (x y : VectorBase) : Int × VectorBase :=
  backendUpdate [x] y fun ys => List.zipWith (fun xi yi => a * xi + yi) x.array ys

/-- Modelled from the spec: backend primitive `VecAYPX (&a, x, y)`:
`y = x + a*y`. -/
def VecAYPX (a : PetscScalar) (x y : VectorBase) : Int × VectorBase :=
  backendUpdate [x] y fun ys => List.zipWith (fun xi yi => xi + a * yi) x.array ys

/-- Modelled from the spec: backend primitive "maxpy (multi-axpy)",
`VecMAXPY (nv, alpha, y, x)`: `y = y + sum of alpha[i]*x[i]` over the first
`nv` weights and addends. -/
def VecMAXPY (nv : Nat) (alpha : List PetscScalar) (y : VectorBase)
    (x : List VectorBase) : Int × VectorBase :=
  backendUpdate (x.take nv) y fun ys =>
    ((alpha.take nv).zip (x.take nv)).foldl
      (fun acc wx => List.zipWith (fun yi xi => yi + wx.1 * xi) acc wx.2.array) ys

/-- Modelled from the spec: backend primitive "elementwise multiply",
`VecPointwiseMult (x, y, w)`: `w = x*y`. -/
def VecPointwiseMult (x y w : VectorBase) : Int × VectorBase :=
  backendUpdate [x, y] w fun _ => List.zipWith (fun xi yi => xi * yi) x.array y.array

/-- Modelled from the spec: backend primitive "elementwise divide",
`VecPointwiseDivide (x, y, w)`: `w = x/y`. -/
def VecPointwiseDivide (x y w : VectorBase) : Int × VectorBase :=
  backendUpdate [x, y] w fun _ => List.zipWith (fun xi yi => xi / yi) x.array y.array

/-- Modelled from the spec: backend primitive "copy", `VecCopy (x, y)`:
`y = x`. -/
def VecCopy (x y : VectorBase) : Int × VectorBase :=
  backendUpdate [x] y fun _ => x.array

/-- Modelled from the spec: backend primitive "swap", `VecSwap (x, y)`: the
entries of the two vectors are exchanged. -/
def VecSwap (x y : VectorBase) : Int × VectorBase × VectorBase :=
  match nextStatus x with
  | (ierr, x) =>
    if ierr ≠ 0 then (ierr, x, y)
    else if sameLayout x y then
      (0, { x with array := y.array }, { y with array := x.array })
    else (PETSC_ERR_ARG_INCOMP, x, y)

/-- Modelled from the spec: backend primitive "equality check",
`VecEqual (x, y, &flag)`: the flag tells whether the two vectors are equal
entry by entry. -/
def VecEqual (x y : VectorBase) : Int × PetscTruth × VectorBase :=
  match nextStatus x with
  | (ierr, x) =>
    if ierr ≠ 0 then (ierr, .PETSC_FALSE, x)
    else (0, if x.array = y.array then .PETSC_TRUE else .PETSC_FALSE, x)

/-! ## Whole-vector assignment and comparison -/

/-- `VectorBase::clear`. -/
def clear (this : VectorBase) : Res Unit :=
  match VecSet 0 this with
  | (ierr, this) =>
    AssertThrow (ierr == 0) (.ExcPETScError ierr) this fun this =>
    (.ok (), this)

/-- `VectorBase::operator = (const PetscScalar s)`. -/
def operator_assign (this : VectorBase) (s : PetscScalar) : Res Unit :=
  match VecSet s this with
  | (ierr, this) =>
    AssertThrow (ierr == 0) (.ExcPETScError ierr) this fun this =>
    (.ok (), this)

/-- The check `Assert (size() == v.size(), exc (size(), v.size()))` that opens
several member functions; `v` is the argument vector, a `const` reference whose
state is not followed further. -/
def assertSameSize {α : Type} (exc : Nat → Nat → Exc) (this v : VectorBase)
    (k : VectorBase → Res α) : Res α :=
  andThen (size this) fun n this =>
  match (size v).1 with
  | .error e => (.error e, this)
  | .ok m =>
    Assert (n == m)
      (fun this =>
        andThen (size this) fun n this =>
        match (size v).1 with
        | .error e => (.error e, this)
        | .ok m => (.ok (exc n m), this)) this k

/-- `VectorBase::operator == (const VectorBase &v)`. -/
def operator_eq (this v : VectorBase) : Res Bool :=
  assertSameSize .ExcDimensionMismatch this v fun this =>
  match VecEqual this v with
  | (ierr, flag, this) =>
    AssertThrow (ierr == 0) (.ExcPETScError ierr) this fun this =>
    (.ok (flag == .PETSC_TRUE), this)

/-- `VectorBase::operator != (const VectorBase &v)`. -/
def operator_ne (this v : VectorBase) : Res Bool :=
  assertSameSize .ExcDimensionMismatch this v fun this =>
  match VecEqual this v with
  | (ierr, flag, this) =>
    AssertThrow (ierr == 0) (.ExcPETScError ierr) this fun this =>
    (.ok (flag == .PETSC_FALSE), this)

/-! ## Reductions that scan the array view -/

/-- The arithmetic of the scalar type `PetscScalar` (a floating-point type of
the backend) that the reductions use: the literals `0` and `1.`, the sum and
the quotient of two scalars, the conversion of an `unsigned int` to a scalar,
and `std::fabs`.  No law is assumed of these operations; in particular the sum
need not be associative, as the sum of floating-point numbers is not, and the
quotient by zero is whatever the arithmetic makes it. -/
structure Arith (S : Type) where
  zero : S
  one : S
  add : S → S → S
  div : S → S → S
  ofUnsigned : Nat → S
  fabs : S → S

/-- The exact arithmetic of the rationals. -/
def exactArith : Arith PetscScalar :=
  { zero := 0, one := 1, add := fun x y => x + y, div := fun x y => x / y,
    ofUnsigned := fun n => (n : PetscScalar), fabs := fun x => |x| }

/-- First loop of `mean_value`: `while (ptr != eptr)` with four accumulators,
each iteration reading `*ptr++` four times.  `ptr` and `eptr` are offsets from
`start_ptr`; a read at an offset outside the view is undefined behaviour.
Yields the accumulators and the final `ptr`. -/
def mean_value_loop4 {S : Type} (ar : Arith S) (start_ptr : List S) (eptr ptr : Nat)
    (sum0 sum1 sum2 sum3 : S) : Except Exc (S × S × S × S × Nat) :=
  if ptr ≠ eptr then
    if h : ptr < start_ptr.length then
      match start_ptr[ptr + 1]?, start_ptr[ptr + 2]?, start_ptr[ptr + 3]? with
      | some x1, some x2, some x3 =>
        mean_value_loop4 ar start_ptr eptr (ptr + 4)
          (ar.add sum0 start_ptr[ptr]) (ar.add sum1 x1) (ar.add sum2 x2) (ar.add sum3 x3)
      | _, _, _ => .error .OutOfBounds
    else .error .OutOfBounds
  else .ok (sum0, sum1, sum2, sum3, ptr)
termination_by start_ptr.length - ptr

/-- Second loop of `mean_value`: `while (ptr != start_ptr+size()) sum0 += *ptr++`;
the bound is asked from the vector before every iteration. -/
def mean_value_rest {S : Type} (ar : Arith S) (start_ptr : List S) (ptr : Nat) (sum0 : S)
    (v : VectorBaseOf S) : ResOf S S :=
  match size v with
  | (.error e, v) => (.error e, v)
  | (.ok n, v) =>
    if ptr ≠ n then
      if h : ptr < start_ptr.length then
        mean_value_rest ar start_ptr (ptr + 1) (ar.add sum0 start_ptr[ptr]) v
      else (.error .OutOfBounds, v)
    else (.ok sum0, v)
termination_by start_ptr.length - ptr

/-- `VectorBase::mean_value`, in the arithmetic `ar` of the scalar type. -/
def mean_value_with {S : Type} (ar : Arith S) (this : VectorBaseOf S) : ResOf S S :=
  match VecGetArray this with
  | (ierr, start_ptr, this) =>
    AssertThrow (ierr == 0) (.ExcPETScError ierr) this fun this =>
    andThen (size this) fun n this =>
    match mean_value_loop4 ar start_ptr (n / 4 * 4) 0 ar.zero ar.zero ar.zero ar.zero with
    | .error e => (.error e, this)
    | .ok (sum0, sum1, sum2, sum3, ptr) =>
      andThen (mean_value_rest ar start_ptr ptr sum0 this) fun sum0 this =>
      andThen (size this) fun n this =>
      let mean : S :=
        ar.div (ar.add (ar.add (ar.add sum0 sum1) sum2) sum3) (ar.ofUnsigned n)
      match VecRestoreArray this with
      | (ierr, this) =>
        AssertThrow (ierr == 0) (.ExcPETScError ierr) this fun this =>
        (.ok mean, this)

/-- `VectorBase::mean_value` over the exact arithmetic of the rationals. -/
def mean_value (this : VectorBase) : Res PetscScalar :=
  mean_value_with exactArith this

/-- The scan of `all_zero` and `is_non_negative`: `while (ptr != eptr)`, leaving
with `false` at the first entry for which `bad` holds. -/
def scan_loop (bad : PetscScalar → Bool) (start_ptr : List PetscScalar) (eptr ptr : Nat) :
    Except Exc Bool :=
  if ptr ≠ eptr then
    if h : ptr < start_ptr.length then
      if bad start_ptr[ptr] then .ok false else scan_loop bad start_ptr eptr (ptr + 1)
    else .error .OutOfBounds
  else .ok true
termination_by start_ptr.length - ptr

/-- `VectorBase::all_zero`. -/
def all_zero (this : VectorBase) : Res Bool :=
  match VecGetArray this with
  | (ierr, start_ptr, this) =>
    AssertThrow (ierr == 0) (.ExcPETScError ierr) this fun this =>
    andThen (size this) fun n this =>
    match scan_loop (fun x => x != 0) start_ptr n 0 with
    | .error e => (.error e, this)
    | .ok flag =>
      match VecRestoreArray this with
      | (ierr, this) =>
        AssertThrow (ierr == 0) (.ExcPETScError ierr) this fun this =>
        (.ok flag, this)

/-- `VectorBase::is_non_negative`. -/
def is_non_negative (this : VectorBase) : Res Bool :=
  match VecGetArray this with
  | (ierr, start_ptr, this) =>
    AssertThrow (ierr == 0) (.ExcPETScError ierr) this fun this =>
    andThen (size this) fun n this =>
    match scan_loop (fun x => x < 0) start_ptr n 0 with
    | .error e => (.error e, this)
    | .ok flag =>
      match VecRestoreArray this with
      | (ierr, this) =>
        AssertThrow (ierr == 0) (.ExcPETScError ierr) this fun this =>
        (.ok flag, this)

/-! ## In-place algebra -/

/-- A backend call followed by `AssertThrow (ierr == 0, ExcPETScError(ierr))`,
which is how every member function below uses the library. -/
def checked (call : Int × VectorBase) : Res Unit :=
  match call with
  | (ierr, this) =>
    AssertThrow (ierr == 0) (.ExcPETScError ierr) this fun this =>
    (.ok (), this)

/-- `VectorBase::operator *= (const PetscScalar a)`. -/
def operator_mul_assign (this : VectorBase) (a : PetscScalar) : Res Unit :=
  checked (VecScale a this)

/-- `VectorBase::operator /= (const PetscScalar a)`, over the exact rationals
(where `1 / 0` is `0`; the source's `1./a` at `a = 0` is an infinity, a value
the rationals do not have). -/
def operator_div_assign (this : VectorBase) (a : PetscScalar) : Res Unit :=
  let factor : PetscScalar := 1 / a
  checked (VecScale factor this)

/-- `VectorBase::operator += (const VectorBase &v)`. -/
def operator_add_assign (this v : VectorBase) : Res Unit :=
  let one : PetscScalar := 1
  checked (VecAXPY one v this)

/-- `VectorBase::operator -= (const VectorBase &v)`. -/
def operator_sub_assign (this v : VectorBase) : Res Unit :=
  let minus_one : PetscScalar := -1
  checked (VecAXPY minus_one v this)

/-- `VectorBase::add (const PetscScalar s)`. -/
def add_s (this : VectorBase) (s : PetscScalar) : Res Unit :=
  checked (VecShift s this)

/-- `VectorBase::add (const VectorBase &v)`. -/
def add_v (this v : VectorBase) : Res Unit :=
  operator_add_assign this v

/-- `VectorBase::add (const PetscScalar a, const VectorBase &v)`. -/
def add_av (this : VectorBase) (a : PetscScalar) (v : VectorBase) : Res Unit :=
  checked (VecAXPY a v this)

/-- `VectorBase::add (a, v, b, w)`. -/
def add_avbw (this : VectorBase) (a : PetscScalar) (v : VectorBase)
    (b : PetscScalar) (w : VectorBase) : Res Unit :=
  let weights := [a, b]
  let addends := [v, w]
  checked (VecMAXPY 2 weights this addends)

/-- `VectorBase::sadd (const PetscScalar s, const VectorBase &v)`. -/
def sadd_sv (this : VectorBase) (s : PetscScalar) (v : VectorBase) : Res Unit :=
  checked (VecAYPX s v this)

/-- `VectorBase::sadd (s, a, v)`. -/
def sadd_sav (this : VectorBase) (s a : PetscScalar) (v : VectorBase) : Res Unit :=
  andThen (operator_mul_assign this s) fun _ this =>
  add_av this a v

/-- `VectorBase::sadd (s, a, v, b, w)`. -/
def sadd_savbw (this : VectorBase) (s a : PetscScalar) (v : VectorBase)
    (b : PetscScalar) (w : VectorBase) : Res Unit :=
  andThen (operator_mul_assign this s) fun _ this =>
  let weights := [a, b]
  let addends := [v, w]
  checked (VecMAXPY 2 weights this addends)

/-- `VectorBase::sadd (s, a, v, b, w, c, x)`. -/
def sadd_savbwcx (this : VectorBase) (s a : PetscScalar) (v : VectorBase)
    (b : PetscScalar) (w : VectorBase) (c : PetscScalar) (x : VectorBase) : Res Unit :=
  andThen (operator_mul_assign this s) fun _ this =>
  let weights := [a, b, c]
  let addends := [v, w, x]
  checked (VecMAXPY 3 weights this addends)

/-- `VectorBase::scale (const VectorBase &factors)`. -/
def scale (this factors : VectorBase) : Res Unit :=
  checked (VecPointwiseMult this factors this)

/-- `VectorBase::equ (const PetscScalar a, const VectorBase &v)`. -/
def equ_av (this : VectorBase) (a : PetscScalar) (v : VectorBase) : Res Unit :=
  assertSameSize .ExcNonMatchingSizes this v fun this =>
  andThen (checked (VecCopy v this)) fun _ this =>
  operator_mul_assign this a

/-- `VectorBase::equ (a, v, b, w)`. -/
def equ_avbw (this : VectorBase) (a : PetscScalar) (v : VectorBase)
    (b : PetscScalar) (w : VectorBase) : Res Unit :=
  assertSameSize .ExcNonMatchingSizes this v fun this =>
  andThen (checked (VecCopy v this)) fun _ this =>
  sadd_sav this a b w

/-- `VectorBase::ratio (const VectorBase &a, const VectorBase &b)`. -/
def ratio (this a b : VectorBase) : Res Unit :=
  checked (VecPointwiseDivide a b this)

/-- `VectorBase::swap (VectorBase &v)`: both vectors are updated, so the state
of `v` afterwards is returned as well. -/
def swap (this v : VectorBase) : Res Unit × VectorBase :=
  match VecSwap this v with
  | (ierr, this, v) =>
    (AssertThrow (ierr == 0) (.ExcPETScError ierr) this fun this => (.ok (), this), v)

/-! ## lp_norm -/

/-- First loop of `lp_norm`: `while (ptr != eptr)` with four accumulators, each
iteration adding `std::pow (std::fabs (*ptr++), p)` to one of them.  `pow` is
`std::pow` of `<cmath>`, a library function outside the repository, taken as a
parameter. -/
def lp_norm_loop4 {S : Type} (ar : Arith S) (pow : S → S → S) (p : S)
    (start_ptr : List S) (eptr ptr : Nat) (sum0 sum1 sum2 sum3 : S) :
    Except Exc (S × S × S × S × Nat) :=
  if ptr ≠ eptr then
    if h : ptr < start_ptr.length then
      match start_ptr[ptr + 1]?, start_ptr[ptr + 2]?, start_ptr[ptr + 3]? with
      | some x1, some x2, some x3 =>
        lp_norm_loop4 ar pow p start_ptr eptr (ptr + 4)
          (ar.add sum0 (pow (ar.fabs start_ptr[ptr]) p)) (ar.add sum1 (pow (ar.fabs x1) p))
          (ar.add sum2 (pow (ar.fabs x2) p)) (ar.add sum3 (pow (ar.fabs x3) p))
      | _, _, _ => .error .OutOfBounds
    else .error .OutOfBounds
  else .ok (sum0, sum1, sum2, sum3, ptr)
termination_by start_ptr.length - ptr

/-- Second loop of `lp_norm`:
`while (ptr != start_ptr+size()) sum0 += std::pow (std::fabs (*ptr++), p)`. -/
def lp_norm_rest {S : Type} (ar : Arith S) (pow : S → S → S) (p : S)
    (start_ptr : List S) (ptr : Nat) (sum0 : S) (v : VectorBaseOf S) : ResOf S S :=
  match size v with
  | (.error e, v) => (.error e, v)
  | (.ok n, v) =>
    if ptr ≠ n then
      if h : ptr < start_ptr.length then
        lp_norm_rest ar pow p start_ptr (ptr + 1)
          (ar.add sum0 (pow (ar.fabs start_ptr[ptr]) p)) v
      else (.error .OutOfBounds, v)
    else (.ok sum0, v)
termination_by start_ptr.length - ptr

/-- `VectorBase::lp_norm (const PetscScalar p)`, in the arithmetic `ar` of the
scalar type and with `std::pow` as the parameter `pow`.  The exponent
`static_cast<PetscScalar>(1./p)` is the quotient of the arithmetic. -/
def lp_norm_with {S : Type} (ar : Arith S) (pow : S → S → S) (this : VectorBaseOf S)
    (p : S) : ResOf S S :=
  match VecGetArray this with
  | (ierr, start_ptr, this) =>
    AssertThrow (ierr == 0) (.ExcPETScError ierr) this fun this =>
    andThen (size this) fun n this =>
    match lp_norm_loop4 ar pow p start_ptr (n / 4 * 4) 0
        ar.zero ar.zero ar.zero ar.zero with
    | .error e => (.error e, this)
    | .ok (sum0, sum1, sum2, sum3, ptr) =>
      andThen (lp_norm_rest ar pow p start_ptr ptr sum0 this) fun sum0 this =>
      let norm : S := pow (ar.add (ar.add (ar.add sum0 sum1) sum2) sum3) (ar.div ar.one p)
      match VecRestoreArray this with
      | (ierr, this) =>
        AssertThrow (ierr == 0) (.ExcPETScError ierr) this fun this =>
        (.ok norm, this)

/-- `VectorBase::lp_norm (const PetscScalar p)` over the exact arithmetic of the
rationals, with `std::pow` as the parameter `pow`. -/
def lp_norm (pow : PetscScalar → PetscScalar → PetscScalar) (this : VectorBase)
    (p : PetscScalar) : Res PetscScalar :=
  lp_norm_with exactArith pow this p

/-! ## print -/

/-- The setting of `std::ios::floatfield` of a stream. -/
inductive FloatField where
  | unset
  | fixed
  | scientific
  deriving DecidableEq, Repr

/-- State of a `std::ostream`: whether it is good (what `AssertThrow (out, ...)`
tests), its precision and floatfield setting, and the characters written. -/
structure ostream where
  good : Bool
  precision : Nat
  floatfield : FloatField
  text : List Char
  deriving DecidableEq, Repr

/-- Insertion of characters into a stream; a stream that is not good takes
nothing.  `std::endl` is the insertion of the end-of-line character (the flush
that goes with it does not change the text). -/
def ostream.write (out : ostream) (cs : List Char) : ostream :=
  if out.good then { out with text := out.text ++ cs } else out

/-- The loops of `print`: `for (unsigned int i=0; i<size(); ++i)
out << static_cast<double>(val[i]) << sep`, with `sep` a blank or `std::endl`.
`fmt` is the formatting of a `double` by the stream library under the
precision and floatfield of the stream, taken as a parameter. -/
def print_loop (fmt : Nat → FloatField → PetscScalar → List Char) (sep : Char)
    (val : List PetscScalar) (i : Nat) (this : VectorBase) (out : ostream) :
    Res Unit × ostream :=
  match size this with
  | (.error e, this) => ((.error e, this), out)
  | (.ok n, this) =>
    if i < n then
      if h : i < val.length then
        print_loop fmt sep val (i + 1) this
          ((out.write (fmt out.precision out.floatfield val[i])).write [sep])
      else ((.error .OutOfBounds, this), out)
    else ((.ok (), this), out)
termination_by val.length - i

/-- `VectorBase::print (out, precision, scientific, across)`; the state of the
stream afterwards is returned as well.  `ExcStream` stands for `ExcIO`. -/
def print (fmt : Nat → FloatField → PetscScalar → List Char) (this : VectorBase)
    (out : ostream) (precision : Nat) (scientific across : Bool) : Res Unit × ostream :=
  if ¬ out.good then ((.error .ExcStream, this), out) else
  match VecGetArray this with
  | (ierr, val, this) =>
    if ierr ≠ 0 then ((.error (.ExcPETScError ierr), this), out) else
    let out := { out with precision := precision }
    let out :=
      if scientific then { out with floatfield := FloatField.scientific }
      else { out with floatfield := FloatField.fixed }
    match (if across then print_loop fmt ' ' val 0 this out
           else print_loop fmt '\n' val 0 this out) with
    | ((.error e, this), out) => ((.error e, this), out)
    | ((.ok _, this), out) =>
      let out := out.write ['\n']
      match VecRestoreArray this with
      | (ierr, this) =>
        if ierr ≠ 0 then ((.error (.ExcPETScError ierr), this), out) else
        if ¬ out.good then ((.error .ExcStream, this), out) else
        ((.ok (), this), out)

/-! ## Predicates on states, used to state the properties -/

/-- All status codes of the list are 0. -/
def AllOk (cs : List Int) : Prop := ∀ c ∈ cs, c = 0

instance (cs : List Int) : Decidable (AllOk cs) := by
  unfold AllOk; infer_instance

/-- Every coming backend call made on `v` succeeds. -/
def Healthy {S : Type} (v : VectorBaseOf S) : Prop := AllOk v.ierrs

instance {S : Type} (v : VectorBaseOf S) : Decidable (Healthy v) := by
  unfold Healthy; infer_instance

/-- The states a backend vector can be in: sizes fit an `int`, the ownership
range lies inside `[0, N)`, the local array has one entry per owned index, and
a one-process vector owns every index. -/
def WellFormed (v : VectorBase) : Prop :=
  v.N < 2 ^ 31 ∧ 0 ≤ v.rstart ∧ v.rstart ≤ v.rend ∧ v.rend ≤ (v.N : Int) ∧
  (v.array.length : Int) = v.rend - v.rstart ∧
  (v.kind = .Vector → v.rstart = 0 ∧ v.rend = (v.N : Int))

instance (v : VectorBase) : Decidable (WellFormed v) := by
  unfold WellFormed; infer_instance

/-- A one-process vector with the given entries, no view outstanding, and the
given status codes to come. -/
def serialVector (xs : List PetscScalar) (ierrs : List Int) : VectorBase :=
  { kind := .Vector, N := xs.length, rstart := 0, rend := xs.length, array := xs,
    views := 0, ierrs := ierrs }

/-- The part of a partitioned vector of global size `N` held by the process
that owns `[rstart, rstart + xs.length)`. -/
def mpiVector (N : Nat) (rstart : Nat) (xs : List PetscScalar) (ierrs : List Int) :
    VectorBase :=
  { kind := .MPI_Vector, N := N, rstart := rstart, rend := rstart + xs.length, array := xs,
    views := 0, ierrs := ierrs }

/-- The exception is one of the two size-mismatch exceptions,
`ExcDimensionMismatch` or `ExcNonMatchingSizes`. -/
def Exc.isSizeMismatch : Exc → Bool
  | .ExcDimensionMismatch _ _ => true
  | .ExcNonMatchingSizes _ _ => true
  | _ => false

/-- The operation failed with a size-mismatch exception. -/
def failsWithSizeMismatch {α : Type} (r : Res α) : Bool :=
  match r.1 with
  | .error e => e.isSizeMismatch
  | .ok _ => false

/-- The operation returned, or failed with `ExcPETScError` carrying a nonzero
backend status. -/
def okOrBackendError {α : Type} (r : Res α) : Prop :=
  match r.1 with
  | .ok _ => True
  | .error e => ∃ ierr : Int, ierr ≠ 0 ∧ e = .ExcPETScError ierr

/-- The entries at the offsets `ptr + 4*j + r` for `j < k`, in index order: what
one of the four accumulators is given in `k` rounds started at `ptr`. -/
def strideEntriesFrom {S : Type} (p : List S) (ptr k r : Nat) : List S :=
  (List.range k).filterMap fun j => p[ptr + 4 * j + r]?

/-- The spec's "groups of four elements", seen from accumulator number `r`: the
entries `4*j + r` for `j < size()/4`, in index order. -/
def strideEntries {S : Type} (xs : List S) (r : Nat) : List S :=
  (List.range (xs.length / 4)).filterMap fun j => xs[4 * j + r]?

/-- The spec's "remainder elements": the entries after the last full group of
four, in index order. -/
def remainderEntries {S : Type} (xs : List S) : List S :=
  xs.drop (xs.length / 4 * 4)

/-- An accumulator that starts at `start` and to which the entries `ys` are
added one after the other: `(((start + y0) + y1) + ...)`. -/
def accumulate {S : Type} (ar : Arith S) (start : S) (ys : List S) : S :=
  ys.foldl ar.add start

/-- The spec's "four-way strided partial sums": four accumulators started at
`0` and advanced in lockstep over the groups of four elements, the remainder
elements folded into the first accumulator, and the four summed as
`((sum0 + sum1) + sum2) + sum3`. -/
def four_way_sum {S : Type} (ar : Arith S) (xs : List S) : S :=
  ar.add
    (ar.add
      (ar.add
        (accumulate ar (accumulate ar ar.zero (strideEntries xs 0)) (remainderEntries xs))
        (accumulate ar ar.zero (strideEntries xs 1)))
      (accumulate ar ar.zero (strideEntries xs 2)))
    (accumulate ar ar.zero (strideEntries xs 3))

/-- The spec's wording of `mean_value`: the four-way strided partial sums,
summed and divided by `size()`. -/
def mean_value_strided {S : Type} (ar : Arith S) (xs : List S) : S :=
  ar.div (four_way_sum ar xs) (ar.ofUnsigned xs.length)

/-- The spec's wording of the accumulation of `lp_norm`: the "same four-way
strided accumulation" as in `mean_value`, "applied to `|x_i|^p`". -/
def lp_norm_accumulated {S : Type} (ar : Arith S) (pow : S → S → S) (p : S)
    (xs : List S) : S :=
  four_way_sum ar (xs.map fun x => pow (ar.fabs x) p)

/-- The sum of the entries in a single accumulator, in index order. -/
def plain_sum {S : Type} (ar : Arith S) (xs : List S) : S :=
  accumulate ar ar.zero xs

/-- Expressions in the operations of the arithmetic and `std::pow`, over the
entries `x_i` of a vector and an exponent `p`: the arithmetic in which nothing
is computed, so that a value shows how it was obtained. -/
inductive Term where
  | zero
  | one
  | x (i : Nat)
  | p
  | add (a b : Term)
  | div (a b : Term)
  | ofUnsigned (n : Nat)
  | fabs (a : Term)
  | pow (a b : Term)
  deriving DecidableEq, Repr

/-- The arithmetic of expressions. -/
def termArith : Arith Term :=
  { zero := .zero, one := .one, add := .add, div := .div, ofUnsigned := .ofUnsigned,
    fabs := .fabs }

/-- The one-process vector of the `n` entries `x_0, ..., x_(n-1)`, no view
outstanding, every backend call succeeding. -/
def termVector (n : Nat) : VectorBaseOf Term :=
  { kind := .Vector, N := n, rstart := 0, rend := n, array := (List.range n).map Term.x,
    views := 0, ierrs := [] }

/-- An arithmetic on the integers that rounds: its sum loses an addend of size
at most 1 next to one of size at least `10^16` (as the sum of `double`s does
at `10^16 + 1`), and is exact otherwise. -/
def absorbingArith : Arith Int :=
  { zero := 0, one := 1,
    add := fun x y =>
      if 10 ^ 16 ≤ x.natAbs ∧ y.natAbs ≤ 1 then x
      else if 10 ^ 16 ≤ y.natAbs ∧ x.natAbs ≤ 1 then y
      else x + y,
    div := fun x y => x / y,
    ofUnsigned := fun n => (n : Int),
    fabs := fun x => (x.natAbs : Int) }

/-- The sum in `ar` is exact at `x` and `y`. -/
def ExactSum (ar : Arith PetscScalar) (x y : PetscScalar) : Prop :=
  ar.add x y = x + y

/-- The quotient in `ar` of `x` by the number `n` is exact. -/
def ExactQuotient (ar : Arith PetscScalar) (x : PetscScalar) (n : Nat) : Prop :=
  ar.div x (ar.ofUnsigned n) = x / (n : PetscScalar)

/-- The laws of addition under which a sum does not depend on the order of
accumulation: `add` is associative and commutative and `zero` is neutral. -/
def SumLaws {S : Type} (ar : Arith S) : Prop :=
  (∀ x y z : S, ar.add (ar.add x y) z = ar.add x (ar.add y z)) ∧
  (∀ x y : S, ar.add x y = ar.add y x) ∧
  (∀ x : S, ar.add ar.zero x = x)

/-- The power function `pow` is exact at `x` and `q`: its value is the real
power of `x` with exponent `q`. -/
def ExactAt (pow : PetscScalar → PetscScalar → PetscScalar) (x q : PetscScalar) : Prop :=
  ((pow x q : ℚ) : ℝ) = (x : ℝ) ^ (q : ℝ)

/-- A power function that is exact for the exponent 2 and for the square root
of 25, to have an instance of `std::pow` on the rationals at these arguments. -/
def samplePow (x q : PetscScalar) : PetscScalar :=
  if q = 2 then x * x else if x = 25 ∧ q = 1 / 2 then 5 else 0

/-- The spec's layout for `across = true`: the formatted entries in index
order on one line, each followed by a blank, and the end of the line. -/
def acrossLayout (f : PetscScalar → List Char) (xs : List PetscScalar) : List Char :=
  (xs.map fun x => f x ++ [' ']).flatten ++ ['\n']

/-- The spec's layout for `across = false`: one formatted entry per line, in
index order, and one more end of line. -/
def columnLayout (f : PetscScalar → List Char) (xs : List PetscScalar) : List Char :=
  (xs.map fun x => f x ++ ['\n']).flatten ++ ['\n']

/-- The text ends with a blank line: its last two characters are ends of line,
so that an empty line follows the last line that carries characters. -/
def endsWithBlankLine (t : List Char) : Bool :=
  t.reverse.take 2 == ['\n', '\n']

/-- The floatfield setting `print` chooses from its argument `scientific`. -/
def floatfieldOf (scientific : Bool) : FloatField :=
  if scientific then .scientific else .fixed

/-- A formatting function to have an instance of the stream library's: the
decimal digits of the numerator. -/
def sampleFormat : Nat → FloatField → PetscScalar → List Char :=
  fun _ _ x => Nat.toDigits 10 x.num.natAbs

/-- A good stream with nothing written yet. -/
def goodStream : ostream :=
  { good := true, precision := 6, floatfield := .unset, text := [] }

/-! # Properties -/

/-! ## Backend calls that succeed -/

theorem AllOk.tail {cs : List Int} (h : AllOk cs) : AllOk cs.tail :=
  fun c hc => h c (List.mem_of_mem_tail hc)

theorem nextStatus_ok {S : Type} (v : VectorBaseOf S) (h : AllOk v.ierrs) :
    nextStatus v = (0, { v with ierrs := v.ierrs.tail }) := by
  unfold nextStatus
  cases hcs : v.ierrs with
  | nil => simp; cases v; simp_all
  | cons c cs =>
    have : c = 0 := h c (by simp [hcs])
    simp [this]

theorem size_ok {S : Type} (v : VectorBaseOf S) (h : AllOk v.ierrs) :
    size v = (.ok v.N, { v with ierrs := v.ierrs.tail }) := by
  simp [size, VecGetSize, nextStatus_ok v h, AssertThrow]

theorem VecGetArray_ok {S : Type} (v : VectorBaseOf S) (h : AllOk v.ierrs) :
    VecGetArray v = (0, v.array, { v with views := v.views + 1, ierrs := v.ierrs.tail }) := by
  simp [VecGetArray, nextStatus_ok v h]

theorem VecRestoreArray_ok {S : Type} (v : VectorBaseOf S) (h : AllOk v.ierrs) :
    VecRestoreArray v = (0, { v with views := v.views - 1, ierrs := v.ierrs.tail }) := by
  simp [VecRestoreArray, nextStatus_ok v h]

theorem VecGetOwnershipRange_ok (v : VectorBase) (h : AllOk v.ierrs) :
    VecGetOwnershipRange v = (0, v.rstart, v.rend, { v with ierrs := v.ierrs.tail }) := by
  simp [VecGetOwnershipRange, nextStatus_ok v h]

theorem toUnsigned_of_range {x : Int} (h0 : 0 ≤ x) (h1 : x < 2 ^ 32) :
    toUnsigned x = x.toNat := by
  unfold toUnsigned; congr 1; omega

theorem AllOk.drop {cs : List Int} (h : AllOk cs) (n : Nat) : AllOk (cs.drop n) :=
  fun c hc => h c (List.mem_of_mem_drop hc)

theorem backendUpdate_ok (xs : List VectorBase) (y : VectorBase)
    (f : List PetscScalar → List PetscScalar) (h : AllOk y.ierrs)
    (hl : ∀ x ∈ xs, sameLayout x y = true) :
    backendUpdate xs y f = (0, { y with array := f y.array, ierrs := y.ierrs.tail }) := by
  have hall : (xs.all fun x => sameLayout x { y with ierrs := y.ierrs.tail }) = true := by
    rw [List.all_eq_true]
    intro x hx
    have := hl x hx
    simpa [sameLayout] using this
  simp only [backendUpdate, nextStatus_ok y h]
  simp [hall]

theorem okOrBackendError_checked (c : Int × VectorBase) : okOrBackendError (checked c) := by
  obtain ⟨ierr, v⟩ := c
  by_cases h : ierr = 0
  · simp [checked, AssertThrow, h, okOrBackendError]
  · simp [checked, AssertThrow, h, okOrBackendError]

theorem okOrBackendError_andThen {α β : Type} (r : Res α) (k : α → VectorBase → Res β)
    (hr : okOrBackendError r) (hk : ∀ a v, okOrBackendError (k a v)) :
    okOrBackendError (andThen r k) := by
  obtain ⟨o, v⟩ := r
  cases o with
  | error e => simpa [andThen, okOrBackendError] using hr
  | ok a => simpa [andThen] using hk a v

theorem not_size_of_okOrBackendError {α : Type} (r : Res α) (h : okOrBackendError r) :
    failsWithSizeMismatch r = false := by
  unfold okOrBackendError at h
  unfold failsWithSizeMismatch
  cases hr : r.1 with
  | ok a => rfl
  | error e =>
    rw [hr] at h
    obtain ⟨ierr, _, he⟩ := h
    simp [he, Exc.isSizeMismatch]

theorem assertSameSize_ne {α : Type} (exc : Nat → Nat → Exc) (this v : VectorBase)
    (k : VectorBase → Res α) (hh : Healthy this) (hv : Healthy v) (hne : this.N ≠ v.N) :
    (assertSameSize exc this v k).1 = .error (exc this.N v.N) := by
  unfold Healthy at hh hv
  simp [assertSameSize, size_ok, hh, hv, hh.tail, andThen, Assert, hne]

theorem assertSameSize_eq {α : Type} (exc : Nat → Nat → Exc) (this v : VectorBase)
    (k : VectorBase → Res α) (hh : Healthy this) (hv : Healthy v) (heq : this.N = v.N) :
    assertSameSize exc this v k = k { this with ierrs := this.ierrs.tail } := by
  unfold Healthy at hh hv
  simp [assertSameSize, size_ok, hh, hv, andThen, Assert, heq]

theorem nextStatus_cons (v : VectorBase) (c : Int) (cs : List Int) (h : v.ierrs = c :: cs) :
    nextStatus v = (c, { v with ierrs := cs }) := by
  simp [nextStatus, h]

theorem checked_status (xs : List VectorBase) (y : VectorBase)
    (f : List PetscScalar → List PetscScalar) (c : Int) (cs : List Int)
    (h : y.ierrs = c :: cs) (hc : c ≠ 0) :
    (checked (backendUpdate xs y f)).1 = .error (.ExcPETScError c) := by
  simp [checked, backendUpdate, nextStatus_cons y c cs h, hc, AssertThrow]

theorem andThen_error {α β : Type} (r : Res α) (k : α → VectorBase → Res β) (e : Exc)
    (h : r.1 = .error e) : (andThen r k).1 = .error e := by
  obtain ⟨o, v⟩ := r
  cases o with
  | error e2 =>
    simp only at h
    cases h
    rfl
  | ok a => cases h

theorem operator_mul_assign_ok (this : VectorBase) (s : PetscScalar) (h : AllOk this.ierrs) :
    operator_mul_assign this s
      = (.ok (), { this with array := this.array.map (fun xi => s * xi), ierrs := this.ierrs.tail }) := by
  unfold operator_mul_assign VecScale
  rw [backendUpdate_ok [] this _ h (by simp)]
  simp [checked, AssertThrow]

theorem add_av_ok (this : VectorBase) (a : PetscScalar) (v : VectorBase) (h : AllOk this.ierrs)
    (hl : sameLayout v this = true) :
    add_av this a v
      = (.ok (), { this with array := List.zipWith (fun xi yi => a * xi + yi) v.array this.array,
                             ierrs := this.ierrs.tail }) := by
  unfold add_av VecAXPY
  rw [backendUpdate_ok [v] this _ h (by simpa using hl)]
  simp [checked, AssertThrow]

theorem VecEqual_ok (x y : VectorBase) (h : AllOk x.ierrs) :
    VecEqual x y = (0, if x.array = y.array then .PETSC_TRUE else .PETSC_FALSE,
      { x with ierrs := x.ierrs.tail }) := by
  simp [VecEqual, nextStatus_ok x h]

theorem clear_ok (a : VectorBase) (h : AllOk a.ierrs) :
    clear a = (.ok (), { a with array := a.array.map (fun _ => 0), ierrs := a.ierrs.tail }) := by
  unfold clear VecSet
  rw [backendUpdate_ok [] a _ h (by simp)]
  simp [AssertThrow]

theorem scan_loop_eq (bad : PetscScalar → Bool) (p : List PetscScalar) (d : Nat) :
    ∀ ptr : Nat, ptr + d = p.length →
      scan_loop bad p p.length ptr = .ok ((p.drop ptr).all fun x => !bad x) := by
  induction d with
  | zero =>
    intro ptr hd
    have : ptr = p.length := by omega
    rw [scan_loop]
    simp [this]
  | succ d ih =>
    intro ptr hd
    have h0 : ptr < p.length := by omega
    have hne : ptr ≠ p.length := by omega
    rw [scan_loop]
    simp only [hne, ne_eq, not_false_eq_true, if_true, h0, dite_true]
    rw [List.drop_eq_getElem_cons h0, List.all_cons]
    by_cases hb : bad p[ptr] = true
    · simp [hb]
    · rw [ih (ptr + 1) (by omega)]
      simp [hb]

theorem scan_loop_past_end (bad : PetscScalar → Bool) (p : List PetscScalar) (eptr : Nat)
    (d : Nat) :
    ∀ ptr : Nat, ptr + d = p.length → p.length < eptr →
      ((p.drop ptr).all fun x => !bad x) = true →
      scan_loop bad p eptr ptr = .error .OutOfBounds := by
  induction d with
  | zero =>
    intro ptr hd he _
    have h0 : ¬ ptr < p.length := by omega
    have hne : ptr ≠ eptr := by omega
    rw [scan_loop]
    simp [hne, h0]
  | succ d ih =>
    intro ptr hd he hall
    have h0 : ptr < p.length := by omega
    have hne : ptr ≠ eptr := by omega
    rw [List.drop_eq_getElem_cons h0, List.all_cons] at hall
    simp only [Bool.and_eq_true, Bool.not_eq_true', ] at hall
    rw [scan_loop]
    simp only [hne, ne_eq, not_false_eq_true, if_true, h0, dite_true, hall.1]
    simpa using ih (ptr + 1) (by omega) he hall.2

theorem strideEntriesFrom_succ {S : Type} (p : List S) (ptr k r : Nat)
    (h : ptr + r < p.length) :
    strideEntriesFrom p ptr (k + 1) r = p[ptr + r] :: strideEntriesFrom p (ptr + 4) k r := by
  unfold strideEntriesFrom
  rw [List.range_succ_eq_map, List.filterMap_cons]
  have h0 : p[ptr + 4 * 0 + r]? = some p[ptr + r] := by
    simp [List.getElem?_eq_getElem h]
  rw [h0, List.filterMap_map]
  simp only
  congr 1
  apply List.filterMap_congr
  intro j _
  simp only [Function.comp]
  congr 1
  omega

theorem strideEntries_eq {S : Type} (xs : List S) (r : Nat) :
    strideEntries xs r = strideEntriesFrom xs 0 (xs.length / 4) r := by
  simp [strideEntries, strideEntriesFrom]

theorem mean_value_loop4_eq {S : Type} (ar : Arith S) (p : List S) (k : Nat) :
    ∀ (ptr : Nat) (s0 s1 s2 s3 : S), ptr + 4 * k ≤ p.length →
      mean_value_loop4 ar p (ptr + 4 * k) ptr s0 s1 s2 s3
        = .ok (accumulate ar s0 (strideEntriesFrom p ptr k 0),
            accumulate ar s1 (strideEntriesFrom p ptr k 1),
            accumulate ar s2 (strideEntriesFrom p ptr k 2),
            accumulate ar s3 (strideEntriesFrom p ptr k 3), ptr + 4 * k) := by
  induction k with
  | zero =>
    intro ptr s0 s1 s2 s3 _
    rw [mean_value_loop4]
    simp [strideEntriesFrom, accumulate]
  | succ k ih =>
    intro ptr s0 s1 s2 s3 hle
    have h0 : ptr < p.length := by omega
    have h1 : ptr + 1 < p.length := by omega
    have h2 : ptr + 2 < p.length := by omega
    have h3 : ptr + 3 < p.length := by omega
    have hne : ptr ≠ ptr + 4 * (k + 1) := by omega
    have he : ptr + 4 * (k + 1) = (ptr + 4) + 4 * k := by omega
    rw [mean_value_loop4]
    simp only [hne, ne_eq, not_false_eq_true, if_true, h0, dite_true,
      List.getElem?_eq_getElem h1, List.getElem?_eq_getElem h2, List.getElem?_eq_getElem h3]
    rw [he, ih (ptr + 4) _ _ _ _ (by omega)]
    rw [strideEntriesFrom_succ p ptr k 0 (by omega), strideEntriesFrom_succ p ptr k 1 h1,
      strideEntriesFrom_succ p ptr k 2 h2, strideEntriesFrom_succ p ptr k 3 h3]
    simp [accumulate]

theorem mean_value_rest_eq {S : Type} (ar : Arith S) (p : List S) (d : Nat) :
    ∀ (ptr : Nat) (s : S) (v : VectorBaseOf S), AllOk v.ierrs → ptr + d = v.N →
      v.N ≤ p.length →
      mean_value_rest ar p ptr s v
        = (.ok (accumulate ar s ((p.drop ptr).take d)),
            { v with ierrs := v.ierrs.drop (d + 1) }) := by
  induction d with
  | zero =>
    intro ptr s v hh hd hle
    have hp : ptr = v.N := by omega
    rw [mean_value_rest, size_ok v hh]
    simp [hp, accumulate]
  | succ d ih =>
    intro ptr s v hh hd hle
    have h0 : ptr < p.length := by omega
    have hne : ptr ≠ v.N := by omega
    rw [mean_value_rest, size_ok v hh]
    simp only [hne, ne_eq, not_false_eq_true, if_true, h0, dite_true]
    rw [ih (ptr + 1) _ _ hh.tail (by simp; omega) (by simpa using hle)]
    rw [List.drop_eq_getElem_cons h0, List.take_succ_cons]
    simp [accumulate]

theorem mean_value_with_eq {S : Type} (ar : Arith S) (v : VectorBaseOf S)
    (hfull : v.array.length = v.N) (hh : Healthy v) :
    (mean_value_with ar v).1 = .ok (mean_value_strided ar v.array) ∧
    (mean_value_with ar v).2.views = v.views := by
  unfold Healthy at hh
  have hh1 := hh.tail
  have hh2 := hh1.tail
  have he : v.N / 4 * 4 = 0 + 4 * (v.N / 4) := by omega
  have hl4 := mean_value_loop4_eq ar v.array (v.N / 4) 0 ar.zero ar.zero ar.zero ar.zero
    (by omega)
  unfold mean_value_with
  rw [VecGetArray_ok v hh]
  simp only [AssertThrow, beq_self_eq_true, if_true, andThen]
  rw [size_ok _ hh1]
  simp only [he, hl4]
  rw [mean_value_rest_eq ar v.array (v.N - 4 * (v.N / 4)) _ _ _ hh2 (by simp; omega)
    (by simp; omega)]
  have hh5 : ∀ n, AllOk (List.drop n v.ierrs) := fun n => hh.drop n
  have htake : List.take (v.N - 4 * (v.N / 4)) (List.drop (4 * (v.N / 4)) v.array)
      = List.drop (v.N / 4 * 4) v.array := by
    rw [Nat.mul_comm (v.N / 4) 4]
    apply List.take_of_length_le
    simp; omega
  simp [size_ok, hh5, VecRestoreArray_ok, htake, mean_value_strided, four_way_sum,
    strideEntries_eq, remainderEntries, hfull]


theorem mean_value_loop4_past_end {S : Type} (ar : Arith S) (p : List S) (eptr : Nat)
    (k : Nat) :
    ∀ (ptr : Nat) (s0 s1 s2 s3 : S), ptr ≤ p.length → ptr + 4 * k = eptr →
      p.length < eptr →
      mean_value_loop4 ar p eptr ptr s0 s1 s2 s3 = .error .OutOfBounds := by
  induction k with
  | zero =>
    intro ptr s0 s1 s2 s3 hle he hlt
    omega
  | succ k ih =>
    intro ptr s0 s1 s2 s3 hle he hlt
    have hne : ptr ≠ eptr := by omega
    rw [mean_value_loop4]
    simp only [hne, ne_eq, not_false_eq_true, if_true]
    by_cases h0 : ptr < p.length
    · simp only [h0, dite_true]
      by_cases h3 : ptr + 3 < p.length
      · have h1 : ptr + 1 < p.length := by omega
        have h2 : ptr + 2 < p.length := by omega
        simp only [List.getElem?_eq_getElem h1, List.getElem?_eq_getElem h2,
          List.getElem?_eq_getElem h3]
        exact ih (ptr + 4) _ _ _ _ (by omega) (by omega) hlt
      · have hn3 : p[ptr + 3]? = none := List.getElem?_eq_none (by omega)
        rw [hn3]
        cases p[ptr + 1]? <;> cases p[ptr + 2]? <;> rfl
    · simp [h0]

theorem mean_value_rest_past_end {S : Type} (ar : Arith S) (p : List S) (d : Nat) :
    ∀ (ptr : Nat) (s : S) (v : VectorBaseOf S), AllOk v.ierrs → ptr + d = p.length →
      p.length < v.N →
      (mean_value_rest ar p ptr s v).1 = .error .OutOfBounds := by
  induction d with
  | zero =>
    intro ptr s v hh hd hlt
    have hne : ptr ≠ v.N := by omega
    have h0 : ¬ ptr < p.length := by omega
    rw [mean_value_rest, size_ok v hh]
    simp [hne, h0]
  | succ d ih =>
    intro ptr s v hh hd hlt
    have hne : ptr ≠ v.N := by omega
    have h0 : ptr < p.length := by omega
    rw [mean_value_rest, size_ok v hh]
    simp only [hne, ne_eq, not_false_eq_true, if_true, h0, dite_true]
    exact ih (ptr + 1) _ _ hh.tail (by omega) (by simpa using hlt)

theorem mean_value_with_past_end {S : Type} (ar : Arith S) (v : VectorBaseOf S)
    (hh : Healthy v) (hlt : v.array.length < v.N) :
    (mean_value_with ar v).1 = .error .OutOfBounds := by
  unfold Healthy at hh
  have hh1 := hh.tail
  have hh2 := hh1.tail
  unfold mean_value_with
  rw [VecGetArray_ok v hh]
  simp only [AssertThrow, beq_self_eq_true, if_true, andThen]
  rw [size_ok _ hh1]
  simp only
  by_cases hc : v.array.length < v.N / 4 * 4
  · rw [mean_value_loop4_past_end ar v.array (v.N / 4 * 4) (v.N / 4) 0 _ _ _ _ (by omega)
      (by omega) hc]
  · have he : v.N / 4 * 4 = 0 + 4 * (v.N / 4) := by omega
    rw [he, mean_value_loop4_eq ar v.array (v.N / 4) 0 _ _ _ _ (by omega)]
    simp only [andThen]
    have hr := mean_value_rest_past_end ar v.array (v.array.length - (0 + 4 * (v.N / 4)))
      (0 + 4 * (v.N / 4)) (accumulate ar ar.zero (strideEntriesFrom v.array 0 (v.N / 4) 0))
      { v with views := v.views + 1, ierrs := v.ierrs.tail.tail } hh2 (by omega) hlt
    rcases hm : mean_value_rest ar v.array (0 + 4 * (v.N / 4))
      (accumulate ar ar.zero (strideEntriesFrom v.array 0 (v.N / 4) 0))
      { v with views := v.views + 1, ierrs := v.ierrs.tail.tail } with ⟨r, w⟩
    rw [hm] at hr
    simp only at hr
    subst hr
    rfl

theorem lp_norm_loop4_eq_map {S : Type} (ar : Arith S) (pow : S → S → S) (p : S)
    (xs : List S) (eptr : Nat) (n : Nat) :
    ∀ (ptr : Nat) (s0 s1 s2 s3 : S), xs.length - ptr = n →
      lp_norm_loop4 ar pow p xs eptr ptr s0 s1 s2 s3
        = mean_value_loop4 ar (xs.map fun x => pow (ar.fabs x) p) eptr ptr s0 s1 s2 s3 := by
  induction n using Nat.strong_induction_on with
  | _ n ih =>
    intro ptr s0 s1 s2 s3 hn
    rw [lp_norm_loop4, mean_value_loop4]
    by_cases hne : ptr = eptr
    · simp [hne]
    · by_cases h0 : ptr < xs.length
      · simp only [hne, ne_eq, not_false_eq_true, if_true, h0, dite_true, List.length_map,
          List.getElem?_map, List.getElem_map]
        cases h1 : xs[ptr + 1]? <;> cases h2 : xs[ptr + 2]? <;> cases h3 : xs[ptr + 3]? <;>
          simp only [Option.map_none', Option.map_some']
        exact ih (xs.length - (ptr + 4)) (by omega) (ptr + 4) _ _ _ _ rfl
      · simp [hne, h0]

theorem lp_norm_rest_eq_map {S : Type} (ar : Arith S) (pow : S → S → S) (p : S)
    (xs : List S) (n : Nat) :
    ∀ (ptr : Nat) (s : S) (v : VectorBaseOf S), xs.length - ptr = n →
      lp_norm_rest ar pow p xs ptr s v
        = mean_value_rest ar (xs.map fun x => pow (ar.fabs x) p) ptr s v := by
  induction n using Nat.strong_induction_on with
  | _ n ih =>
    intro ptr s v hn
    rw [lp_norm_rest, mean_value_rest]
    rcases hs : size v with ⟨r, v1⟩
    cases r with
    | error e => rfl
    | ok m =>
      simp only
      by_cases hne : ptr = m
      · simp [hne]
      · by_cases h0 : ptr < xs.length
        · simp only [hne, ne_eq, not_false_eq_true, if_true, h0, dite_true, List.length_map,
            List.getElem_map]
          exact ih (xs.length - (ptr + 1)) (by omega) (ptr + 1) _ _ rfl
        · simp [hne, h0]

theorem lp_norm_with_eq {S : Type} (ar : Arith S) (pow : S → S → S) (p : S)
    (v : VectorBaseOf S) (hfull : v.array.length = v.N) (hh : Healthy v) :
    (lp_norm_with ar pow v p).1
      = .ok (pow (lp_norm_accumulated ar pow p v.array) (ar.div ar.one p)) := by
  unfold Healthy at hh
  have hh1 := hh.tail
  have hh2 := hh1.tail
  have hlen : (v.array.map fun x => pow (ar.fabs x) p).length = v.N := by simp [hfull]
  have he : v.N / 4 * 4 = 0 + 4 * (v.N / 4) := by omega
  have hl4 := mean_value_loop4_eq ar (v.array.map fun x => pow (ar.fabs x) p) (v.N / 4) 0
    ar.zero ar.zero ar.zero ar.zero (by omega)
  unfold lp_norm_with
  rw [VecGetArray_ok v hh]
  simp only [AssertThrow, beq_self_eq_true, if_true, andThen]
  rw [size_ok _ hh1]
  simp only [lp_norm_loop4_eq_map ar pow p v.array _ _ 0 _ _ _ _ rfl, he, hl4]
  rw [lp_norm_rest_eq_map ar pow p v.array _ _ _ _ rfl,
    mean_value_rest_eq ar _ (v.N - 4 * (v.N / 4)) _ _ _ hh2 (by simp; omega) (by simp; omega)]
  have hh5 : ∀ n, AllOk (List.drop n v.ierrs) := fun n => hh.drop n
  have htake : List.take (v.N - 4 * (v.N / 4))
      (List.drop (4 * (v.N / 4)) (v.array.map fun x => pow (ar.fabs x) p))
      = List.drop (v.N / 4 * 4) (v.array.map fun x => pow (ar.fabs x) p) := by
    rw [Nat.mul_comm (v.N / 4) 4]
    apply List.take_of_length_le
    simp; omega
  simp only [zero_add] at htake ⊢
  simp [hh5, VecRestoreArray_ok, htake, lp_norm_accumulated, four_way_sum, strideEntries_eq,
    remainderEntries, hfull]

theorem lp_norm_with_past_end {S : Type} (ar : Arith S) (pow : S → S → S) (p : S)
    (v : VectorBaseOf S) (hh : Healthy v) (hlt : v.array.length < v.N) :
    (lp_norm_with ar pow v p).1 = .error .OutOfBounds := by
  unfold Healthy at hh
  have hh1 := hh.tail
  have hh2 := hh1.tail
  have hlen : (v.array.map fun x => pow (ar.fabs x) p).length = v.array.length := by simp
  unfold lp_norm_with
  rw [VecGetArray_ok v hh]
  simp only [AssertThrow, beq_self_eq_true, if_true, andThen]
  rw [size_ok _ hh1]
  simp only [lp_norm_loop4_eq_map ar pow p v.array _ _ 0 _ _ _ _ rfl]
  by_cases hc : v.array.length < v.N / 4 * 4
  · rw [mean_value_loop4_past_end ar _ (v.N / 4 * 4) (v.N / 4) 0 _ _ _ _ (by omega)
      (by omega) (by omega)]
  · have he : v.N / 4 * 4 = 0 + 4 * (v.N / 4) := by omega
    rw [he, mean_value_loop4_eq ar _ (v.N / 4) 0 _ _ _ _ (by omega)]
    simp only [andThen]
    rw [lp_norm_rest_eq_map ar pow p v.array _ _ _ _ rfl]
    have hr := mean_value_rest_past_end ar (v.array.map fun x => pow (ar.fabs x) p)
      (v.array.length - (0 + 4 * (v.N / 4)))
      (0 + 4 * (v.N / 4))
      (accumulate ar ar.zero
        (strideEntriesFrom (v.array.map fun x => pow (ar.fabs x) p) 0 (v.N / 4) 0))
      { v with views := v.views + 1, ierrs := v.ierrs.tail.tail } hh2 (by simp; omega)
      (by simp; omega)
    rcases hm : mean_value_rest ar (v.array.map fun x => pow (ar.fabs x) p) (0 + 4 * (v.N / 4))
      (accumulate ar ar.zero
        (strideEntriesFrom (v.array.map fun x => pow (ar.fabs x) p) 0 (v.N / 4) 0))
      { v with views := v.views + 1, ierrs := v.ierrs.tail.tail } with ⟨r, w⟩
    rw [hm] at hr
    simp only at hr
    subst hr
    rfl

theorem foldl_add_eq_sum {M : Type} [AddCommMonoid M] (s : M) (ys : List M) :
    ys.foldl (fun a b => a + b) s = s + ys.sum := by
  induction ys generalizing s with
  | nil => simp
  | cons y ys ih =>
    rw [List.foldl_cons, ih]
    simp [add_assoc]

theorem drop_sum_eq_strides {M : Type} [AddCommMonoid M] (xs : List M) (k : Nat) :
    ∀ ptr : Nat, ptr + 4 * k ≤ xs.length →
      (strideEntriesFrom xs ptr k 0).sum + (strideEntriesFrom xs ptr k 1).sum
        + (strideEntriesFrom xs ptr k 2).sum + (strideEntriesFrom xs ptr k 3).sum
        + (xs.drop (ptr + 4 * k)).sum = (xs.drop ptr).sum := by
  induction k with
  | zero =>
    intro ptr _
    simp [strideEntriesFrom]
  | succ k ih =>
    intro ptr hle
    have h0 : ptr < xs.length := by omega
    have h1 : ptr + 1 < xs.length := by omega
    have h2 : ptr + 2 < xs.length := by omega
    have h3 : ptr + 3 < xs.length := by omega
    have he : ptr + 4 * (k + 1) = (ptr + 4) + 4 * k := by omega
    have hd : (xs.drop ptr).sum
        = xs[ptr] + (xs[ptr + 1] + (xs[ptr + 2] + (xs[ptr + 3] + (xs.drop (ptr + 4)).sum))) := by
      rw [List.drop_eq_getElem_cons h0, List.drop_eq_getElem_cons h1,
        List.drop_eq_getElem_cons h2, List.drop_eq_getElem_cons h3]
      simp only [List.sum_cons]
    rw [hd, ← ih (ptr + 4) (by omega), he]
    rw [strideEntriesFrom_succ xs ptr k 0 (by omega), strideEntriesFrom_succ xs ptr k 1 h1,
      strideEntriesFrom_succ xs ptr k 2 h2, strideEntriesFrom_succ xs ptr k 3 h3]
    simp only [List.sum_cons, add_zero]
    abel

theorem four_way_sum_eq_plain_sum {S : Type} (ar : Arith S) (h : SumLaws ar) (xs : List S) :
    four_way_sum ar xs = plain_sum ar xs := by
  obtain ⟨ha, hc, hz⟩ := h
  letI : Zero S := ⟨ar.zero⟩
  letI : Add S := ⟨ar.add⟩
  letI : AddCommMonoid S :=
    { add_assoc := ha, zero_add := hz, add_zero := fun x => (hc x ar.zero).trans (hz x),
      add_comm := hc, nsmul := nsmulRec, nsmul_zero := fun _ => rfl,
      nsmul_succ := fun _ _ => rfl }
  have hadd : ar.add = fun a b : S => a + b := rfl
  have hzero : ar.zero = (0 : S) := rfl
  have h := drop_sum_eq_strides xs (xs.length / 4) 0 (by omega)
  have he : xs.length / 4 * 4 = 0 + 4 * (xs.length / 4) := by omega
  unfold four_way_sum plain_sum remainderEntries accumulate
  rw [List.drop_zero] at h
  rw [hadd, hzero]
  simp only [foldl_add_eq_sum, strideEntries_eq, he, zero_add]
  simp only [zero_add] at h
  rw [← h]
  abel

theorem exactArith_sumLaws : SumLaws exactArith :=
  ⟨fun x y z => add_assoc x y z, fun x y => add_comm x y, fun x => zero_add x⟩

theorem plain_sum_exact (xs : List PetscScalar) : plain_sum exactArith xs = xs.sum := by
  unfold plain_sum accumulate
  have hadd : exactArith.add = fun a b : PetscScalar => a + b := rfl
  have hzero : exactArith.zero = (0 : PetscScalar) := rfl
  rw [hadd, hzero, foldl_add_eq_sum, zero_add]

theorem four_way_sum_exact (xs : List PetscScalar) :
    four_way_sum exactArith xs = xs.sum := by
  rw [four_way_sum_eq_plain_sum exactArith exactArith_sumLaws, plain_sum_exact]

theorem mean_value_strided_exact (xs : List PetscScalar) :
    mean_value_strided exactArith xs = xs.sum / (xs.length : PetscScalar) := by
  unfold mean_value_strided
  rw [four_way_sum_exact]
  rfl

theorem lp_norm_accumulated_exact (pow : PetscScalar → PetscScalar → PetscScalar)
    (p : PetscScalar) (xs : List PetscScalar) :
    lp_norm_accumulated exactArith pow p xs = (xs.map fun x => pow |x| p).sum := by
  unfold lp_norm_accumulated
  rw [four_way_sum_exact]
  rfl

/-- In an arithmetic that rounds, the four-way accumulation and the in-order
sum of the same entries may differ: in `absorbingArith` the entries
`10^16, 1, 1, 1, -10^16` accumulate to 3 four-way and to 0 in order, and
`10^16, 1, -10^16` have the strided mean 0. -/
theorem four_way_sum_is_not_plain_sum :
    four_way_sum absorbingArith [10 ^ 16, 1, 1, 1, -10 ^ 16] = 3 ∧
    plain_sum absorbingArith [10 ^ 16, 1, 1, 1, -10 ^ 16] = 0 ∧
    mean_value_strided absorbingArith [10 ^ 16, 1, -10 ^ 16] = 0 := by
  decide

theorem all_zero_eq (v : VectorBase) (hfull : v.array.length = v.N) (hh : Healthy v) :
    (all_zero v).1 = .ok (v.array.all fun x => x == 0) := by
  unfold Healthy at hh
  have hh1 := hh.tail
  have hh2 := hh1.tail
  unfold all_zero
  rw [VecGetArray_ok v hh]
  simp only [AssertThrow, beq_self_eq_true, if_true, andThen]
  rw [size_ok _ hh1]
  simp only [← hfull]
  rw [scan_loop_eq _ v.array v.array.length 0 (by omega)]
  simp only []
  rw [VecRestoreArray_ok _ hh2]
  simp only [beq_self_eq_true, if_true]
  congr 2
  funext x
  by_cases hx : x = 0 <;> simp [hx, bne]

theorem all_zero_after_clear (a : VectorBase) (hfull : a.array.length = a.N) (hh : Healthy a) :
    (clear a).1 = .ok () ∧ (all_zero (clear a).2).1 = .ok true := by
  unfold Healthy at hh
  rw [clear_ok a hh]
  refine ⟨rfl, ?_⟩
  have h2 : Healthy { a with array := a.array.map (fun _ => 0), ierrs := a.ierrs.tail } :=
    hh.tail
  rw [all_zero_eq _ (by simpa using hfull) h2]
  simp

theorem VecCopy_ok (x y : VectorBase) (h : AllOk y.ierrs) (hl : sameLayout x y = true) :
    checked (VecCopy x y) = (.ok (), { y with array := x.array, ierrs := y.ierrs.tail }) := by
  unfold VecCopy
  rw [backendUpdate_ok [x] y _ h (by simpa using hl)]
  simp [checked, AssertThrow]

theorem sadd_sav_ok (this : VectorBase) (s a : PetscScalar) (v : VectorBase)
    (h : AllOk this.ierrs) (hl : sameLayout v this = true) :
    sadd_sav this s a v
      = (.ok (), { this with
          array := List.zipWith (fun xi yi => a * xi + yi) v.array
            (this.array.map fun xi => s * xi),
          ierrs := this.ierrs.tail.tail }) := by
  unfold sadd_sav
  rw [operator_mul_assign_ok this s h]
  simp only [andThen]
  rw [add_av_ok _ a v h.tail (by simpa [sameLayout] using hl)]

theorem VecSwap_ok (x y : VectorBase) (h : AllOk x.ierrs) (hl : sameLayout x y = true) :
    VecSwap x y = (0, { x with array := y.array, ierrs := x.ierrs.tail },
      { y with array := x.array }) := by
  have hl2 : sameLayout { x with ierrs := x.ierrs.tail } y = true := by
    simpa [sameLayout] using hl
  simp only [VecSwap, nextStatus_ok x h]
  simp [hl2]

theorem nextStatus_array (v : VectorBase) : (nextStatus v).2.array = v.array := by
  unfold nextStatus
  cases v.ierrs <;> rfl

theorem swap_ok_arrays (a b a1 b1 : VectorBase) (h : swap a b = ((.ok (), a1), b1)) :
    a1.array = b.array ∧ b1.array = a.array := by
  have hx := nextStatus_array a
  unfold swap VecSwap at h
  rcases hn : nextStatus a with ⟨ierr, x⟩
  rw [hn] at h hx
  simp only at h hx
  by_cases h0 : ierr = 0
  · by_cases hl : sameLayout x b = true
    · simp [h0, hl, AssertThrow] at h
      obtain ⟨h1, h2⟩ := h
      subst h1 h2
      exact ⟨rfl, hx⟩
    · simp [h0, hl, AssertThrow, PETSC_ERR_ARG_INCOMP] at h
  · simp [h0, AssertThrow] at h

/-! ## Element read -/

/-- C1: on a partitioned vector with ownership range `[rstart, rend)` whose
backend calls succeed, reading an index below `size()` fails with
`ExcAccessToNonlocalElement (index, rstart, rend-1)` exactly when the index is
below `rstart` or not below `rend`; otherwise the read returns the entry of the
local array at offset `index - rstart`. -/
theorem read_mpi_nonlocal_iff (v : VectorBase) (index : Nat) (hk : v.kind = .MPI_Vector)
    (hwf : WellFormed v) (hh : Healthy v) (hi : index < v.N) :
    ((VectorReference.toPetscScalar ⟨v, index⟩).1
        = .error (.ExcAccessToNonlocalElement index v.rstart (v.rend - 1))
      ↔ ((index : Int) < v.rstart ∨ v.rend ≤ (index : Int))) ∧
    (¬ ((index : Int) < v.rstart ∨ v.rend ≤ (index : Int)) →
      ∃ x, v.array[((index : Int) - v.rstart).toNat]? = some x ∧
        (VectorReference.toPetscScalar ⟨v, index⟩).1 = .ok x) := by
  obtain ⟨h1, h2, h3, h4, h5, h6⟩ := hwf
  have hb : toUnsigned v.rstart = v.rstart.toNat := toUnsigned_of_range h2 (by omega)
  have he : toUnsigned v.rend = v.rend.toNat := toUnsigned_of_range (by omega) (by omega)
  unfold Healthy at hh
  have hh1 := hh.tail
  have hh2 := hh1.tail
  have hh3 := hh2.tail
  by_cases hout : ((index : Int) < v.rstart ∨ v.rend ≤ (index : Int))
  · have hc : ¬ (v.rstart ≤ (index : Int) ∧ (index : Int) < v.rend) := by omega
    simp [VectorReference.toPetscScalar, size_ok, hh, andThen,
      AssertThrow, Assert, hi, hk, VecGetOwnershipRange_ok, hh1, hb, he, hout, hc]
  · have hc : (v.rstart.toNat ≤ index ∧ index < v.rend.toNat) := by omega
    have hlt : ((index : Int) - v.rstart).toNat < v.array.length := by omega
    have hd : deref v.array ((index : Int) - v.rstart)
        = some (v.array.get ⟨((index : Int) - v.rstart).toNat, hlt⟩) := by
      unfold deref
      rw [if_pos (by omega)]
      simp [List.getElem?_eq_getElem hlt]
    simp [VectorReference.toPetscScalar, size_ok, hh, andThen,
      AssertThrow, Assert, hi, hk, VecGetOwnershipRange_ok, hh1, hb, he, hout, hc,
      VecGetArray_ok, hh2, hd, VecRestoreArray_ok, hh3, List.getElem?_eq_getElem hlt]

/-- Witness of C1: the process owning `[2, 5)` of a vector of size 8 reads
index 4. -/
theorem read_mpi_nonlocal_iff_witness :
    (mpiVector 8 2 [4, 5, 6] []).kind = .MPI_Vector ∧ WellFormed (mpiVector 8 2 [4, 5, 6] []) ∧
    Healthy (mpiVector 8 2 [4, 5, 6] []) ∧ 4 < (mpiVector 8 2 [4, 5, 6] []).N ∧
    (((VectorReference.toPetscScalar ⟨mpiVector 8 2 [4, 5, 6] [], 4⟩).1
        = .error (.ExcAccessToNonlocalElement 4 (mpiVector 8 2 [4, 5, 6] []).rstart
            ((mpiVector 8 2 [4, 5, 6] []).rend - 1))
      ↔ (((4 : Nat) : Int) < (mpiVector 8 2 [4, 5, 6] []).rstart
          ∨ (mpiVector 8 2 [4, 5, 6] []).rend ≤ ((4 : Nat) : Int))) ∧
    (¬ (((4 : Nat) : Int) < (mpiVector 8 2 [4, 5, 6] []).rstart
          ∨ (mpiVector 8 2 [4, 5, 6] []).rend ≤ ((4 : Nat) : Int)) →
      ∃ x, (mpiVector 8 2 [4, 5, 6] []).array[(((4 : Nat) : Int)
            - (mpiVector 8 2 [4, 5, 6] []).rstart).toNat]? = some x ∧
        (VectorReference.toPetscScalar ⟨mpiVector 8 2 [4, 5, 6] [], 4⟩).1 = .ok x)) :=
  ⟨rfl, by decide, by decide, by decide,
    read_mpi_nonlocal_iff (mpiVector 8 2 [4, 5, 6] []) 4 rfl (by decide) (by decide) (by decide)⟩

/-- C2: on a one-process vector of size `N` whose backend calls succeed, reading
index `N` fails with `ExcIndexRange (N, 0, N)`, and reading an index `i < N`
returns the entry stored at position `i` of the array. -/
theorem read_serial (v : VectorBase) (hk : v.kind = .Vector) (hwf : WellFormed v)
    (hh : Healthy v) :
    (VectorReference.toPetscScalar ⟨v, v.N⟩).1 = .error (.ExcIndexRange v.N 0 v.N) ∧
    ∀ i, i < v.N → ∃ x, v.array[i]? = some x ∧
      (VectorReference.toPetscScalar ⟨v, i⟩).1 = .ok x := by
  obtain ⟨h1, h2, h3, h4, h5, h6⟩ := hwf
  obtain ⟨h7, h8⟩ := h6 hk
  unfold Healthy at hh
  have hh1 := hh.tail
  have hh2 := hh1.tail
  constructor
  · simp [VectorReference.toPetscScalar, size_ok, hh, hh1, andThen, Assert]
  · intro i hi
    have hlt : i < v.array.length := by omega
    have hd : deref v.array (i : Int) = some (v.array.get ⟨i, hlt⟩) := by
      unfold deref
      simp [List.getElem?_eq_getElem hlt]
    simp [VectorReference.toPetscScalar, size_ok, hh, andThen,
      AssertThrow, Assert, hi, hk, hh1,
      VecGetArray_ok, hh2, hd, VecRestoreArray_ok, List.getElem?_eq_getElem hlt]

/-- Witness of C2: the one-process vector `[4, 5, 6]`. -/
theorem read_serial_witness :
    (serialVector [4, 5, 6] []).kind = .Vector ∧ WellFormed (serialVector [4, 5, 6] []) ∧
    Healthy (serialVector [4, 5, 6] []) ∧
    ((VectorReference.toPetscScalar ⟨serialVector [4, 5, 6] [], (serialVector [4, 5, 6] []).N⟩).1
        = .error (.ExcIndexRange (serialVector [4, 5, 6] []).N 0 (serialVector [4, 5, 6] []).N) ∧
      ∀ i, i < (serialVector [4, 5, 6] []).N → ∃ x, (serialVector [4, 5, 6] []).array[i]? = some x ∧
        (VectorReference.toPetscScalar ⟨serialVector [4, 5, 6] [], i⟩).1 = .ok x) :=
  ⟨rfl, by decide, by decide,
    read_serial (serialVector [4, 5, 6] []) rfl (by decide) (by decide)⟩

/-! ## Release of the array view -/

/-- C3, at a failing input: `mean_value` on the one-process vector
`[1, 2, 3, 4, 5]` with no view outstanding, when `VecGetArray` succeeds and the
`VecGetSize` call of the first `size()` returns status 7.  The operation
leaves with `ExcPETScError (7)` and one view is still outstanding. -/
theorem mean_value_view_not_released :
    (serialVector [1, 2, 3, 4, 5] [0, 7]).views = 0 ∧
    (mean_value (serialVector [1, 2, 3, 4, 5] [0, 7])).1 = .error (.ExcPETScError 7) ∧
    (mean_value (serialVector [1, 2, 3, 4, 5] [0, 7])).2.views = 1 :=
  ⟨rfl, rfl, rfl⟩

/-! ## Size checks of the in-place operations -/

/-- C4 as stated fails: `operator +=` with an argument of size 3 on a vector of
size 2 does not fail with a size-mismatch exception: the member function has
no size check and its only throw is `ExcPETScError`. -/
theorem add_assign_mismatch_is_backend_error :
    (serialVector [1, 2, 3] []).N ≠ (serialVector [1, 2] []).N ∧
    failsWithSizeMismatch
      (operator_add_assign (serialVector [1, 2] []) (serialVector [1, 2, 3] [])) = false :=
  ⟨by decide, not_size_of_okOrBackendError _
    (okOrBackendError_checked (VecAXPY 1 (serialVector [1, 2, 3] []) (serialVector [1, 2] [])))⟩

/-- C4, amended: with the size queries succeeding, `equ (a, v)` and
`equ (a, v, b, w)` fail with `ExcNonMatchingSizes (size(), v.size())` whenever
the size of `v` differs from the size of this vector.  The other operations
(`+=`, `-=`, `add`, `sadd`, `scale`, `ratio`) make no size check of their own
and forward to the backend: whatever the sizes, a nonzero status of the first
backend call makes them fail with `ExcPETScError` carrying that status, their
only failure is an `ExcPETScError` with a nonzero status, and on no input do
they fail with `ExcDimensionMismatch` or `ExcNonMatchingSizes`. -/
theorem size_mismatch_reporting (this v w x : VectorBase) (a b c s : PetscScalar) :
    (Healthy this → Healthy v → v.N ≠ this.N →
      (equ_av this a v).1 = .error (.ExcNonMatchingSizes this.N v.N) ∧
      (equ_avbw this a v b w).1 = .error (.ExcNonMatchingSizes this.N v.N)) ∧
    (∀ (ierr : Int) (rest : List Int), this.ierrs = ierr :: rest → ierr ≠ 0 →
      (operator_add_assign this v).1 = .error (.ExcPETScError ierr) ∧
      (operator_sub_assign this v).1 = .error (.ExcPETScError ierr) ∧
      (add_v this v).1 = .error (.ExcPETScError ierr) ∧
      (add_av this a v).1 = .error (.ExcPETScError ierr) ∧
      (add_avbw this a v b w).1 = .error (.ExcPETScError ierr) ∧
      (sadd_sv this s v).1 = .error (.ExcPETScError ierr) ∧
      (sadd_sav this s a v).1 = .error (.ExcPETScError ierr) ∧
      (sadd_savbw this s a v b w).1 = .error (.ExcPETScError ierr) ∧
      (sadd_savbwcx this s a v b w c x).1 = .error (.ExcPETScError ierr) ∧
      (scale this v).1 = .error (.ExcPETScError ierr) ∧
      (ratio this v w).1 = .error (.ExcPETScError ierr)) ∧
    (okOrBackendError (operator_add_assign this v) ∧
      okOrBackendError (operator_sub_assign this v) ∧
      okOrBackendError (add_v this v) ∧
      okOrBackendError (add_av this a v) ∧
      okOrBackendError (add_avbw this a v b w) ∧
      okOrBackendError (sadd_sv this s v) ∧
      okOrBackendError (sadd_sav this s a v) ∧
      okOrBackendError (sadd_savbw this s a v b w) ∧
      okOrBackendError (sadd_savbwcx this s a v b w c x) ∧
      okOrBackendError (scale this v) ∧
      okOrBackendError (ratio this v w)) ∧
    (failsWithSizeMismatch (operator_add_assign this v) = false ∧
      failsWithSizeMismatch (operator_sub_assign this v) = false ∧
      failsWithSizeMismatch (add_v this v) = false ∧
      failsWithSizeMismatch (add_av this a v) = false ∧
      failsWithSizeMismatch (add_avbw this a v b w) = false ∧
      failsWithSizeMismatch (sadd_sv this s v) = false ∧
      failsWithSizeMismatch (sadd_sav this s a v) = false ∧
      failsWithSizeMismatch (sadd_savbw this s a v b w) = false ∧
      failsWithSizeMismatch (sadd_savbwcx this s a v b w c x) = false ∧
      failsWithSizeMismatch (scale this v) = false ∧
      failsWithSizeMismatch (ratio this v w) = false) := by
  have hok : okOrBackendError (operator_add_assign this v) ∧
      okOrBackendError (operator_sub_assign this v) ∧
      okOrBackendError (add_v this v) ∧
      okOrBackendError (add_av this a v) ∧
      okOrBackendError (add_avbw this a v b w) ∧
      okOrBackendError (sadd_sv this s v) ∧
      okOrBackendError (sadd_sav this s a v) ∧
      okOrBackendError (sadd_savbw this s a v b w) ∧
      okOrBackendError (sadd_savbwcx this s a v b w c x) ∧
      okOrBackendError (scale this v) ∧
      okOrBackendError (ratio this v w) :=
    ⟨okOrBackendError_checked _, okOrBackendError_checked _, okOrBackendError_checked _,
      okOrBackendError_checked _, okOrBackendError_checked _, okOrBackendError_checked _,
      okOrBackendError_andThen _ _ (okOrBackendError_checked _)
        (fun _ _ => okOrBackendError_checked _),
      okOrBackendError_andThen _ _ (okOrBackendError_checked _)
        (fun _ _ => okOrBackendError_checked _),
      okOrBackendError_andThen _ _ (okOrBackendError_checked _)
        (fun _ _ => okOrBackendError_checked _),
      okOrBackendError_checked _, okOrBackendError_checked _⟩
  refine ⟨?_, ?_, hok, ?_⟩
  · intro hh hv hne
    exact ⟨assertSameSize_ne _ this v _ hh hv (Ne.symm hne),
      assertSameSize_ne _ this v _ hh hv (Ne.symm hne)⟩
  · intro ierr rest hi hne
    have hmul : (operator_mul_assign this s).1 = .error (.ExcPETScError ierr) :=
      checked_status [] this _ ierr rest hi hne
    exact ⟨checked_status _ this _ ierr rest hi hne, checked_status _ this _ ierr rest hi hne,
      checked_status _ this _ ierr rest hi hne, checked_status _ this _ ierr rest hi hne,
      checked_status _ this _ ierr rest hi hne, checked_status _ this _ ierr rest hi hne,
      andThen_error _ _ _ hmul, andThen_error _ _ _ hmul, andThen_error _ _ _ hmul,
      checked_status _ this _ ierr rest hi hne, checked_status _ this _ ierr rest hi hne⟩
  · obtain ⟨h1, h2, h3, h4, h5, h6, h7, h8, h9, h10, h11⟩ := hok
    exact ⟨not_size_of_okOrBackendError _ h1, not_size_of_okOrBackendError _ h2,
      not_size_of_okOrBackendError _ h3, not_size_of_okOrBackendError _ h4,
      not_size_of_okOrBackendError _ h5, not_size_of_okOrBackendError _ h6,
      not_size_of_okOrBackendError _ h7, not_size_of_okOrBackendError _ h8,
      not_size_of_okOrBackendError _ h9, not_size_of_okOrBackendError _ h10,
      not_size_of_okOrBackendError _ h11⟩

/-- Witness of C4 (amended): `equ (3, v)` with `v` of size 3 on a vector of
size 2. -/
theorem size_mismatch_reporting_witness :
    Healthy (serialVector [1, 2] []) ∧ Healthy (serialVector [1, 2, 3] []) ∧
    (serialVector [1, 2, 3] []).N ≠ (serialVector [1, 2] []).N ∧
    (equ_av (serialVector [1, 2] []) 3 (serialVector [1, 2, 3] [])).1
      = .error (.ExcNonMatchingSizes (serialVector [1, 2] []).N (serialVector [1, 2, 3] []).N) :=
  ⟨by decide, by decide, by decide,
    ((size_mismatch_reporting (serialVector [1, 2] []) (serialVector [1, 2, 3] [])
      (serialVector [1, 2] []) (serialVector [1, 2] []) 3 0 0 0).1
        (by decide) (by decide) (by decide)).1⟩

/-! ## Mean value -/

/-- C5: on a non-empty vector whose local array holds all `size()` entries and
whose backend calls succeed, in every arithmetic of the scalar type
`mean_value` returns `(sum0+sum1+sum2+sum3)/size()` with the four accumulators
of `mean_value_strided`: accumulator `r` takes the entries `4j+r` of the first
`4*(size()/4)` in the order of `j`, and the first one then takes the remaining
entries in order.  Where the sum is associative and commutative with neutral
zero this is the in-order sum of all entries divided by `size()`; over exact
arithmetic it is the arithmetic mean.  On `[1, 2, 3, 4, 5]` the result is 3 in
every arithmetic that is exact at the eight sums and the quotient the code
forms there, and so over exact arithmetic. -/
theorem mean_value_four_way {S : Type} (ar : Arith S) (v : VectorBaseOf S)
    (hfull : v.array.length = v.N) (hpos : 0 < v.N) (hh : Healthy v) :
    (mean_value_with ar v).1 = .ok (mean_value_strided ar v.array) ∧
    (SumLaws ar →
      mean_value_strided ar v.array = ar.div (plain_sum ar v.array) (ar.ofUnsigned v.N)) ∧
    (∀ w : VectorBase, w.array.length = w.N → 0 < w.N → Healthy w →
      (mean_value w).1 = .ok (mean_value_strided exactArith w.array) ∧
      mean_value_strided exactArith w.array = w.array.sum / (w.N : PetscScalar)) ∧
    (∀ fl : Arith PetscScalar, fl.zero = 0 →
      ExactSum fl 0 1 → ExactSum fl 1 5 → ExactSum fl 0 2 → ExactSum fl 0 3 →
      ExactSum fl 0 4 → ExactSum fl 6 2 → ExactSum fl 8 3 → ExactSum fl 11 4 →
      ExactQuotient fl 15 5 →
      (mean_value_with fl (serialVector [1, 2, 3, 4, 5] [])).1 = .ok 3) ∧
    (mean_value (serialVector [1, 2, 3, 4, 5] [])).1 = .ok 3 := by
  have _ := hpos
  have hinst : ∀ fl : Arith PetscScalar, fl.zero = 0 →
      ExactSum fl 0 1 → ExactSum fl 1 5 → ExactSum fl 0 2 → ExactSum fl 0 3 →
      ExactSum fl 0 4 → ExactSum fl 6 2 → ExactSum fl 8 3 → ExactSum fl 11 4 →
      ExactQuotient fl 15 5 →
      (mean_value_with fl (serialVector [1, 2, 3, 4, 5] [])).1 = .ok 3 := by
    intro fl hz a1 a2 a3 a4 a5 a6 a7 a8 hq
    rw [(mean_value_with_eq fl (serialVector [1, 2, 3, 4, 5] []) rfl (by decide)).1]
    unfold ExactSum at a1 a2 a3 a4 a5 a6 a7 a8
    unfold ExactQuotient at hq
    have e1 : fl.add 0 1 = 1 := by rw [a1]; norm_num
    have e2 : fl.add 1 5 = 6 := by rw [a2]; norm_num
    have e3 : fl.add 0 2 = 2 := by rw [a3]; norm_num
    have e4 : fl.add 0 3 = 3 := by rw [a4]; norm_num
    have e5 : fl.add 0 4 = 4 := by rw [a5]; norm_num
    have e6 : fl.add 6 2 = 8 := by rw [a6]; norm_num
    have e7 : fl.add 8 3 = 11 := by rw [a7]; norm_num
    have e8 : fl.add 11 4 = 15 := by rw [a8]; norm_num
    have e9 : fl.div 15 (fl.ofUnsigned 5) = 3 := by rw [hq]; norm_num
    have hs0 : strideEntries ([1, 2, 3, 4, 5] : List PetscScalar) 0 = [1] := by decide
    have hs1 : strideEntries ([1, 2, 3, 4, 5] : List PetscScalar) 1 = [2] := by decide
    have hs2 : strideEntries ([1, 2, 3, 4, 5] : List PetscScalar) 2 = [3] := by decide
    have hs3 : strideEntries ([1, 2, 3, 4, 5] : List PetscScalar) 3 = [4] := by decide
    have hr : remainderEntries ([1, 2, 3, 4, 5] : List PetscScalar) = [5] := by decide
    have harr : (serialVector [1, 2, 3, 4, 5] []).array = [1, 2, 3, 4, 5] := rfl
    rw [harr]
    simp only [mean_value_strided, four_way_sum, hs0, hs1, hs2, hs3, hr, accumulate,
      List.foldl_cons, List.foldl_nil, hz, e1, e2, e3, e4, e5, e6, e7, e8, List.length_cons,
      List.length_nil]
    exact congrArg _ e9
  refine ⟨(mean_value_with_eq ar v hfull hh).1, ?_, ?_, hinst, ?_⟩
  · intro hl
    unfold mean_value_strided
    rw [four_way_sum_eq_plain_sum ar hl, hfull]
  · intro w hf _ hw
    refine ⟨(mean_value_with_eq exactArith w hf hw).1, ?_⟩
    rw [mean_value_strided_exact, hf]
  · exact hinst exactArith rfl (by simp [ExactSum, exactArith]) (by simp [ExactSum, exactArith])
      (by simp [ExactSum, exactArith]) (by simp [ExactSum, exactArith])
      (by simp [ExactSum, exactArith]) (by simp [ExactSum, exactArith])
      (by simp [ExactSum, exactArith]) (by simp [ExactSum, exactArith])
      (by simp [ExactQuotient, exactArith])

/-- Witness of C5: the five entries `x_0, ..., x_4` in the arithmetic of
expressions, where the value returned shows the order of the accumulation. -/
theorem mean_value_four_way_witness :
    (termVector 5).array.length = (termVector 5).N ∧ 0 < (termVector 5).N ∧
    Healthy (termVector 5) ∧
    (mean_value_with termArith (termVector 5)).1
      = .ok (.div
          (.add (.add (.add (.add (.add .zero (.x 0)) (.x 4)) (.add .zero (.x 1)))
            (.add .zero (.x 2))) (.add .zero (.x 3)))
          (.ofUnsigned 5)) :=
  ⟨by decide, by decide, by decide,
    (mean_value_four_way termArith (termVector 5) (by decide) (by decide) (by decide)).1.trans
      (congrArg Except.ok (by decide))⟩

/-! ## Equality and inequality -/

/-- C6: for vectors `a` and `b` of equal size on which the backend calls
succeed, `a != b` returns true exactly when `a == b` returns false, and
`a == b` returns true exactly when the flag of the backend's `VecEqual` is
`PETSC_TRUE`, which is when the two arrays are equal entry by entry. -/
theorem ne_iff_not_eq (a b : VectorBase) (hsize : a.N = b.N) (ha : Healthy a) (hb : Healthy b) :
    ∃ e n : Bool, (operator_eq a b).1 = .ok e ∧ (operator_ne a b).1 = .ok n ∧
      (n = true ↔ e = false) ∧
      (e = true ↔ (VecEqual { a with ierrs := a.ierrs.tail } b).2.1 = .PETSC_TRUE) ∧
      (e = true ↔ a.array = b.array) := by
  have ha1 : AllOk a.ierrs.tail := AllOk.tail ha
  refine ⟨decide (a.array = b.array), !decide (a.array = b.array), ?_, ?_, ?_, ?_, ?_⟩
  · unfold operator_eq
    rw [assertSameSize_eq _ a b _ ha hb hsize, VecEqual_ok _ _ ha1]
    by_cases h : a.array = b.array <;> simp [AssertThrow, h]
  · unfold operator_ne
    rw [assertSameSize_eq _ a b _ ha hb hsize, VecEqual_ok _ _ ha1]
    by_cases h : a.array = b.array <;> simp [AssertThrow, h]
  · simp
  · rw [VecEqual_ok _ _ ha1]
    by_cases h : a.array = b.array <;> simp [h]
  · simp

/-- Witness of C6: `[1, 2]` against `[3, 4]`. -/
theorem ne_iff_not_eq_witness :
    (serialVector [1, 2] []).N = (serialVector [3, 4] []).N ∧
    Healthy (serialVector [1, 2] []) ∧ Healthy (serialVector [3, 4] []) ∧
    ∃ e n : Bool, (operator_eq (serialVector [1, 2] []) (serialVector [3, 4] [])).1 = .ok e ∧
      (operator_ne (serialVector [1, 2] []) (serialVector [3, 4] [])).1 = .ok n ∧
      (n = true ↔ e = false) ∧
      (e = true ↔ (VecEqual { serialVector [1, 2] [] with
          ierrs := (serialVector [1, 2] []).ierrs.tail } (serialVector [3, 4] [])).2.1
            = .PETSC_TRUE) ∧
      (e = true ↔ (serialVector [1, 2] []).array = (serialVector [3, 4] []).array) :=
  ⟨rfl, by decide, by decide,
    ne_iff_not_eq (serialVector [1, 2] []) (serialVector [3, 4] []) rfl (by decide) (by decide)⟩

/-! ## clear and all_zero -/

/-- C7, at a failing input: the process that owns `[0, 2)` of a partitioned
vector of size 4.  `clear` succeeds and sets both local entries to zero; the
scan of `all_zero` then runs to `size() = 4` and reads the array view at
offset 2, past its end, instead of returning `true`. -/
theorem all_zero_after_clear_partitioned :
    (clear (mpiVector 4 0 [5, 7] [])).1 = .ok () ∧
    (clear (mpiVector 4 0 [5, 7] [])).2.array = [0, 0] ∧
    (all_zero (clear (mpiVector 4 0 [5, 7] [])).2).1 = .error .OutOfBounds := by
  refine ⟨rfl, ?_, ?_⟩
  · simp [clear_ok, mpiVector, AllOk]
  · simp [clear_ok, mpiVector, AllOk, all_zero, VecGetArray_ok, size_ok, AssertThrow, andThen,
      scan_loop]

/-! ## sadd, equ and swap -/

/-- C8: `sadd (s, a, v)` is `operator *= s` followed by `add (a, v)`, with the
same outcome and the same final state on every input; for `v` of the size of
this vector (globally and in the local part) and a backend whose calls succeed
both return, and entry `i` of this vector becomes `s*this[i] + a*v[i]` for
every `i`.  The argument `v` is an object other than this vector. -/
theorem sadd_is_scale_then_add (this : VectorBase) (s a : PetscScalar) (v : VectorBase)
    (hsize : v.N = this.N) (hlocal : v.array.length = this.array.length) (hh : Healthy this) :
    sadd_sav this s a v = andThen (operator_mul_assign this s) (fun _ t => add_av t a v) ∧
    ∃ t1 t2 : VectorBase,
      operator_mul_assign this s = (.ok (), t1) ∧ add_av t1 a v = (.ok (), t2) ∧
      sadd_sav this s a v = (.ok (), t2) ∧
      t2.array.length = this.array.length ∧
      ∀ i (hi : i < this.array.length) (hv : i < v.array.length),
        t2.array[i]? = some (s * this.array[i] + a * v.array[i]) := by
  have hl : sameLayout v this = true := by simp [sameLayout, hsize, hlocal]
  have h : AllOk this.ierrs := hh
  refine ⟨rfl, _, _, operator_mul_assign_ok this s h,
    add_av_ok _ a v h.tail (by simpa [sameLayout] using hl), sadd_sav_ok this s a v h hl, ?_, ?_⟩
  · simp [hlocal]
  · intro i hi hv
    simp [List.getElem?_zipWith, List.getElem?_eq_getElem hi, List.getElem?_eq_getElem hv]
    ring

/-- Witness of C8: `sadd (3, 5, [10, 20])` on `[1, 2]`. -/
theorem sadd_is_scale_then_add_witness :
    (serialVector [10, 20] []).N = (serialVector [1, 2] []).N ∧
    (serialVector [10, 20] []).array.length = (serialVector [1, 2] []).array.length ∧
    Healthy (serialVector [1, 2] []) ∧
    ∃ t1 t2 : VectorBase,
      operator_mul_assign (serialVector [1, 2] []) 3 = (.ok (), t1) ∧
      add_av t1 5 (serialVector [10, 20] []) = (.ok (), t2) ∧
      sadd_sav (serialVector [1, 2] []) 3 5 (serialVector [10, 20] []) = (.ok (), t2) ∧
      t2.array.length = (serialVector [1, 2] []).array.length ∧
      ∀ i (hi : i < (serialVector [1, 2] []).array.length)
        (hv : i < (serialVector [10, 20] []).array.length),
        t2.array[i]? = some (3 * (serialVector [1, 2] []).array[i]
          + 5 * (serialVector [10, 20] []).array[i]) :=
  ⟨rfl, rfl, by decide,
    (sadd_is_scale_then_add (serialVector [1, 2] []) 3 5 (serialVector [10, 20] [])
      rfl rfl (by decide)).2⟩

/-- C9: for `v` and `w` of the size of this vector (globally and in the local
part) and a backend whose calls succeed, `equ (a, v, b, w)` returns and entry
`i` of this vector is `a*v[i] + b*w[i]` for every `i`, whatever this vector
held before.  The arguments `v` and `w` are objects other than this vector. -/
theorem equ_two_terms (this : VectorBase) (a : PetscScalar) (v : VectorBase) (b : PetscScalar)
    (w : VectorBase) (hv : v.N = this.N) (hvl : v.array.length = this.array.length)
    (hw : w.N = this.N) (hwl : w.array.length = this.array.length)
    (hh : Healthy this) (hhv : Healthy v) :
    ∃ t : VectorBase, equ_avbw this a v b w = (.ok (), t) ∧
      t.array.length = this.array.length ∧
      ∀ i (hi : i < v.array.length) (hj : i < w.array.length),
        t.array[i]? = some (a * v.array[i] + b * w.array[i]) := by
  have h : AllOk this.ierrs := hh
  have hlv : sameLayout v { this with ierrs := this.ierrs.tail } = true := by
    simp [sameLayout, hv, hvl]
  have e : equ_avbw this a v b w
      = (.ok (), { this with
          array := List.zipWith (fun xi yi => b * xi + yi) w.array (v.array.map fun xi => a * xi),
          ierrs := this.ierrs.tail.tail.tail.tail }) := by
    unfold equ_avbw
    rw [assertSameSize_eq _ this v _ hh hhv hv.symm, VecCopy_ok v _ h.tail hlv]
    simp only [andThen]
    rw [sadd_sav_ok _ a b w h.tail.tail (by simp [sameLayout, hw, hwl, hvl])]
  refine ⟨_, e, ?_, ?_⟩
  · simp [hvl, hwl]
  · intro i hi hj
    simp [List.getElem?_zipWith, List.getElem?_eq_getElem hi, List.getElem?_eq_getElem hj]
    ring

/-- Witness of C9: `equ (3, [1, 1], 5, [10, 20])` on `[7, 8]`. -/
theorem equ_two_terms_witness :
    (serialVector [1, 1] []).N = (serialVector [7, 8] []).N ∧
    (serialVector [1, 1] []).array.length = (serialVector [7, 8] []).array.length ∧
    (serialVector [10, 20] []).N = (serialVector [7, 8] []).N ∧
    (serialVector [10, 20] []).array.length = (serialVector [7, 8] []).array.length ∧
    Healthy (serialVector [7, 8] []) ∧ Healthy (serialVector [1, 1] []) ∧
    ∃ t : VectorBase,
      equ_avbw (serialVector [7, 8] []) 3 (serialVector [1, 1] []) 5 (serialVector [10, 20] [])
        = (.ok (), t) ∧
      t.array.length = (serialVector [7, 8] []).array.length ∧
      ∀ i (hi : i < (serialVector [1, 1] []).array.length)
        (hj : i < (serialVector [10, 20] []).array.length),
        t.array[i]? = some (3 * (serialVector [1, 1] []).array[i]
          + 5 * (serialVector [10, 20] []).array[i]) :=
  ⟨rfl, rfl, rfl, rfl, by decide, by decide,
    equ_two_terms (serialVector [7, 8] []) 3 (serialVector [1, 1] []) 5 (serialVector [10, 20] [])
      rfl rfl rfl rfl (by decide) (by decide)⟩

/-- C10: whenever `a.swap (b)` returns, the entries of `a` are those `b` had
and the entries of `b` are those `a` had, and a second `a.swap (b)` that returns
gives both vectors their original entries back; for vectors of the same size
(globally and in the local part) and a backend whose calls succeed, both swaps
return. -/
theorem swap_involutive (a b : VectorBase) :
    (∀ a1 b1 : VectorBase, swap a b = ((.ok (), a1), b1) →
      a1.array = b.array ∧ b1.array = a.array ∧
      ∀ a2 b2 : VectorBase, swap a1 b1 = ((.ok (), a2), b2) →
        a2.array = a.array ∧ b2.array = b.array) ∧
    (a.N = b.N → a.array.length = b.array.length → Healthy a →
      ∃ a1 b1 a2 b2 : VectorBase,
        swap a b = ((.ok (), a1), b1) ∧ swap a1 b1 = ((.ok (), a2), b2)) := by
  constructor
  · intro a1 b1 h1
    obtain ⟨e1, e2⟩ := swap_ok_arrays a b a1 b1 h1
    refine ⟨e1, e2, ?_⟩
    intro a2 b2 h2
    obtain ⟨e3, e4⟩ := swap_ok_arrays a1 b1 a2 b2 h2
    exact ⟨e3.trans e2, e4.trans e1⟩
  · intro hsize hlocal hh
    have h : AllOk a.ierrs := hh
    have hl : sameLayout a b = true := by simp [sameLayout, hsize, hlocal]
    have e1 : swap a b = ((.ok (), { a with array := b.array, ierrs := a.ierrs.tail }),
        { b with array := a.array }) := by
      unfold swap
      rw [VecSwap_ok a b h hl]
      simp [AssertThrow]
    have e2 : swap { a with array := b.array, ierrs := a.ierrs.tail } { b with array := a.array }
        = ((.ok (), { a with array := a.array, ierrs := a.ierrs.tail.tail }),
            { b with array := b.array }) := by
      unfold swap
      rw [VecSwap_ok _ _ h.tail (by simp [sameLayout, hsize, hlocal])]
      simp [AssertThrow]
    exact ⟨_, _, _, _, e1, e2⟩

/-- Witness of C10: `[1, 2]` swapped with `[3, 4]`. -/
theorem swap_involutive_witness :
    (serialVector [1, 2] []).N = (serialVector [3, 4] []).N ∧
    (serialVector [1, 2] []).array.length = (serialVector [3, 4] []).array.length ∧
    Healthy (serialVector [1, 2] []) ∧
    ∃ a1 b1 a2 b2 : VectorBase,
      swap (serialVector [1, 2] []) (serialVector [3, 4] []) = ((.ok (), a1), b1) ∧
      swap a1 b1 = ((.ok (), a2), b2) :=
  ⟨rfl, rfl, by decide,
    (swap_involutive (serialVector [1, 2] []) (serialVector [3, 4] [])).2 rfl rfl (by decide)⟩

/-! ## lp_norm, print, and scans of a short local array: auxiliary facts -/


theorem rpow_three_two : ((3 : ℚ) : ℝ) ^ ((2 : ℚ) : ℝ) = ((9 : ℚ) : ℝ) := by
  push_cast
  rw [Real.rpow_two]
  norm_num

theorem rpow_four_two : ((4 : ℚ) : ℝ) ^ ((2 : ℚ) : ℝ) = ((16 : ℚ) : ℝ) := by
  push_cast
  rw [Real.rpow_two]
  norm_num

theorem rpow_twentyfive_half : ((25 : ℚ) : ℝ) ^ ((1 / 2 : ℚ) : ℝ) = ((5 : ℚ) : ℝ) := by
  push_cast
  have h : (25 : ℝ) = 5 ^ (2 : ℝ) := by
    rw [Real.rpow_two]
    norm_num
  rw [h, ← Real.rpow_mul (by norm_num)]
  norm_num

theorem ExactAt.eq_of {pow : PetscScalar → PetscScalar → PetscScalar} {x q y : PetscScalar}
    (h : ExactAt pow x q) (hy : (x : ℝ) ^ (q : ℝ) = (y : ℝ)) : pow x q = y := by
  unfold ExactAt at h
  rw [hy] at h
  exact_mod_cast h

theorem samplePow_exact :
    ExactAt samplePow 3 2 ∧ ExactAt samplePow 4 2 ∧ ExactAt samplePow 25 (1 / 2) := by
  refine ⟨?_, ?_, ?_⟩
  · have e : samplePow 3 2 = 9 := by norm_num [samplePow]
    unfold ExactAt
    rw [e, rpow_three_two]
  · have e : samplePow 4 2 = 16 := by norm_num [samplePow]
    unfold ExactAt
    rw [e, rpow_four_two]
  · have e : samplePow 25 (1 / 2) = 5 := by norm_num [samplePow]
    unfold ExactAt
    rw [e, rpow_twentyfive_half]

theorem write_good (out : ostream) (cs : List Char) (h : out.good = true) :
    out.write cs = { out with text := out.text ++ cs } := by
  simp [ostream.write, h]

theorem print_loop_eq (fmt : Nat → FloatField → PetscScalar → List Char) (sep : Char)
    (val : List PetscScalar) (d : Nat) :
    ∀ (i : Nat) (this : VectorBase) (out : ostream), AllOk this.ierrs → i + d = this.N →
      this.N ≤ val.length → out.good = true →
      print_loop fmt sep val i this out
        = ((.ok (), { this with ierrs := this.ierrs.drop (d + 1) }),
            { out with text := out.text
                ++ (((val.drop i).take d).map
                    fun x => fmt out.precision out.floatfield x ++ [sep]).flatten }) := by
  induction d with
  | zero =>
    intro i this out hh hd hle hg
    have hi : ¬ i < this.N := by omega
    rw [print_loop, size_ok this hh]
    simp [hi]
  | succ d ih =>
    intro i this out hh hd hle hg
    have hi : i < this.N := by omega
    have h0 : i < val.length := by omega
    rw [print_loop, size_ok this hh]
    simp only [hi, if_true, h0, dite_true]
    rw [write_good out _ hg, write_good _ _ (by simpa using hg)]
    rw [ih (i + 1) _ _ hh.tail (by simp; omega) (by simpa using hle) (by simpa using hg)]
    rw [List.drop_eq_getElem_cons h0, List.take_succ_cons, List.map_cons, List.flatten_cons]
    simp [List.append_assoc]


theorem print_eq (fmt : Nat → FloatField → PetscScalar → List Char) (v : VectorBase)
    (out : ostream) (precision : Nat) (scientific across : Bool)
    (hfull : v.array.length = v.N) (hh : Healthy v) (hgood : out.good = true) :
    (print fmt v out precision scientific across).1.1 = .ok () ∧
    (print fmt v out precision scientific across).2.text
      = out.text ++ (if across then acrossLayout (fmt precision (floatfieldOf scientific)) v.array
          else columnLayout (fmt precision (floatfieldOf scientific)) v.array) := by
  unfold Healthy at hh
  have hh1 := hh.tail
  have hh5 : ∀ n, AllOk (List.drop n v.ierrs) := fun n => hh.drop n
  have htake : List.take v.N v.array = v.array := List.take_of_length_le (by omega)
  have hloop : ∀ (sep : Char) (ff : FloatField),
      print_loop fmt sep v.array 0
        { v with views := v.views + 1, ierrs := v.ierrs.tail }
        { good := true, precision := precision, floatfield := ff, text := out.text }
      = ((.ok (), { v with views := v.views + 1, ierrs := v.ierrs.tail.drop (v.N + 1) }),
          { good := true, precision := precision, floatfield := ff,
            text := out.text ++ (v.array.map fun x => fmt precision ff x ++ [sep]).flatten }) := by
    intro sep ff
    rw [print_loop_eq fmt sep v.array v.N 0 _ _ hh1 (by simp) (by simp; omega) rfl]
    simp [htake]
  unfold print
  rw [VecGetArray_ok v hh]
  cases across <;> cases scientific <;>
    simp [hgood, hloop, write_good, VecRestoreArray_ok, hh5, acrossLayout, columnLayout,
      floatfieldOf]


theorem endsWithBlankLine_column (f : PetscScalar → List Char) (t : List Char)
    (xs : List PetscScalar) (hne : xs ≠ []) :
    endsWithBlankLine (t ++ columnLayout f xs) = true := by
  rcases List.eq_nil_or_concat xs with h | ⟨ys, z, h⟩
  · exact absurd h hne
  · subst h
    simp [endsWithBlankLine, columnLayout]

theorem endsWithBlankLine_across (f : PetscScalar → List Char) (t : List Char)
    (xs : List PetscScalar) (hne : xs ≠ []) :
    endsWithBlankLine (t ++ acrossLayout f xs) = false := by
  rcases List.eq_nil_or_concat xs with h | ⟨ys, z, h⟩
  · exact absurd h hne
  · subst h
    simp [endsWithBlankLine, acrossLayout]

theorem mean_value_eq (v : VectorBase) (hfull : v.array.length = v.N) (hh : Healthy v) :
    (mean_value v).1 = .ok (mean_value_strided exactArith v.array) ∧
    (mean_value v).2.views = v.views :=
  mean_value_with_eq exactArith v hfull hh

theorem mean_value_past_end (v : VectorBase) (hh : Healthy v) (hlt : v.array.length < v.N) :
    (mean_value v).1 = .error .OutOfBounds :=
  mean_value_with_past_end exactArith v hh hlt

theorem lp_norm_eq (pow : PetscScalar → PetscScalar → PetscScalar) (p : PetscScalar)
    (v : VectorBase) (hfull : v.array.length = v.N) (hh : Healthy v) :
    (lp_norm pow v p).1
      = .ok (pow (lp_norm_accumulated exactArith pow p v.array) (1 / p)) :=
  lp_norm_with_eq exactArith pow p v hfull hh

theorem lp_norm_past_end (pow : PetscScalar → PetscScalar → PetscScalar) (p : PetscScalar)
    (v : VectorBase) (hh : Healthy v) (hlt : v.array.length < v.N) :
    (lp_norm pow v p).1 = .error .OutOfBounds :=
  lp_norm_with_past_end exactArith pow p v hh hlt

theorem print_loop_past_end (fmt : Nat → FloatField → PetscScalar → List Char) (sep : Char)
    (val : List PetscScalar) (d : Nat) :
    ∀ (i : Nat) (this : VectorBase) (out : ostream), AllOk this.ierrs → i + d = val.length →
      val.length < this.N →
      (print_loop fmt sep val i this out).1.1 = .error .OutOfBounds := by
  induction d with
  | zero =>
    intro i this out hh hd hlt
    have hi : i < this.N := by omega
    have h0 : ¬ i < val.length := by omega
    rw [print_loop, size_ok this hh]
    simp [hi, h0]
  | succ d ih =>
    intro i this out hh hd hlt
    have hi : i < this.N := by omega
    have h0 : i < val.length := by omega
    rw [print_loop, size_ok this hh]
    simp only [hi, if_true, h0, dite_true]
    exact ih (i + 1) _ _ hh.tail (by omega) (by simpa using hlt)

theorem print_past_end (fmt : Nat → FloatField → PetscScalar → List Char) (v : VectorBase)
    (out : ostream) (precision : Nat) (scientific across : Bool)
    (hh : Healthy v) (hgood : out.good = true) (hlt : v.array.length < v.N) :
    (print fmt v out precision scientific across).1.1 = .error .OutOfBounds := by
  unfold Healthy at hh
  have hh1 := hh.tail
  have hloop : ∀ (sep : Char) (o : ostream),
      ∃ w o2, print_loop fmt sep v.array 0
          { v with views := v.views + 1, ierrs := v.ierrs.tail } o
        = ((.error .OutOfBounds, w), o2) := by
    intro sep o
    have h := print_loop_past_end fmt sep v.array v.array.length 0
      { v with views := v.views + 1, ierrs := v.ierrs.tail } o hh1 (by omega) hlt
    rcases hm : print_loop fmt sep v.array 0
      { v with views := v.views + 1, ierrs := v.ierrs.tail } o with ⟨⟨r, w⟩, o2⟩
    rw [hm] at h
    simp only at h
    subst h
    exact ⟨w, o2, rfl⟩
  unfold print
  rw [VecGetArray_ok v hh]
  cases across <;> cases scientific
  · obtain ⟨w, o2, e⟩ := hloop '\n' ⟨true, precision, FloatField.fixed, out.text⟩
    simp [hgood, e]
  · obtain ⟨w, o2, e⟩ := hloop '\n' ⟨true, precision, FloatField.scientific, out.text⟩
    simp [hgood, e]
  · obtain ⟨w, o2, e⟩ := hloop ' ' ⟨true, precision, FloatField.fixed, out.text⟩
    simp [hgood, e]
  · obtain ⟨w, o2, e⟩ := hloop ' ' ⟨true, precision, FloatField.scientific, out.text⟩
    simp [hgood, e]

theorem scan_loop_short (bad : PetscScalar → Bool) (p : List PetscScalar) (eptr : Nat)
    (d : Nat) :
    ∀ ptr : Nat, ptr + d = p.length → p.length ≤ eptr →
      scan_loop bad p eptr ptr
        = if (p.drop ptr).any bad then .ok false
          else if p.length < eptr then .error .OutOfBounds else .ok true := by
  induction d with
  | zero =>
    intro ptr hd hle
    have h0 : ¬ ptr < p.length := by omega
    have hdrop : p.drop ptr = [] := List.drop_eq_nil_of_le (by omega)
    rw [scan_loop, hdrop]
    by_cases hlt : p.length < eptr
    · have hne : ptr ≠ eptr := by omega
      simp [hne, h0, hlt]
    · have he : ptr = eptr := by omega
      simp [he, hlt]
  | succ d ih =>
    intro ptr hd hle
    have h0 : ptr < p.length := by omega
    have hne : ptr ≠ eptr := by omega
    rw [scan_loop, List.drop_eq_getElem_cons h0, List.any_cons]
    simp only [hne, ne_eq, not_false_eq_true, if_true, h0, dite_true]
    by_cases hb : bad p[ptr] = true
    · simp [hb]
    · rw [ih (ptr + 1) (by omega) hle]
      simp [hb]

theorem all_zero_scan (v : VectorBase) (hh : Healthy v) :
    (all_zero v).1 = scan_loop (fun x => x != 0) v.array v.N 0 := by
  unfold Healthy at hh
  have hh1 := hh.tail
  have hh2 := hh1.tail
  unfold all_zero
  rw [VecGetArray_ok v hh]
  simp only [AssertThrow, beq_self_eq_true, if_true, andThen]
  rw [size_ok _ hh1]
  simp only
  cases scan_loop (fun x => x != 0) v.array v.N 0 with
  | error e => rfl
  | ok flag =>
    simp only
    rw [VecRestoreArray_ok _ hh2]
    simp

theorem is_non_negative_scan (v : VectorBase) (hh : Healthy v) :
    (is_non_negative v).1 = scan_loop (fun x => x < 0) v.array v.N 0 := by
  unfold Healthy at hh
  have hh1 := hh.tail
  have hh2 := hh1.tail
  unfold is_non_negative
  rw [VecGetArray_ok v hh]
  simp only [AssertThrow, beq_self_eq_true, if_true, andThen]
  rw [size_ok _ hh1]
  simp only
  cases scan_loop (fun x => decide (x < 0)) v.array v.N 0 with
  | error e => rfl
  | ok flag =>
    simp only
    rw [VecRestoreArray_ok _ hh2]
    simp

/-! ## lp_norm -/

/-- C11: on a vector whose local array holds all `size()` entries and whose
backend calls succeed, for every exponent `p`, every power function and every
arithmetic of the scalar type, `lp_norm (p)` returns the power, with the
exponent `1./p` as the arithmetic forms it, of the four-way strided
accumulation of `|x_i|^p` (`lp_norm_accumulated`: accumulator `r` takes the
powers of the entries `4j+r` of the first `4*(size()/4)`, the first one then
the powers of the remaining entries).  Where the sum is associative and
commutative with neutral zero the accumulated value is the in-order sum of
`|x_i|^p` over all entries, and so it is over exact arithmetic.  With the power
function exact at the three powers involved, and the arithmetic exact at the
operations the code performs there, `[3, 4]` and `p = 2` give the accumulated
value 25 and the result 5. -/
theorem lp_norm_four_way {S : Type} (ar : Arith S) (pow : S → S → S) (p : S)
    (v : VectorBaseOf S) (hfull : v.array.length = v.N) (hh : Healthy v) :
    (lp_norm_with ar pow v p).1
      = .ok (pow (lp_norm_accumulated ar pow p v.array) (ar.div ar.one p)) ∧
    (SumLaws ar →
      lp_norm_accumulated ar pow p v.array
        = plain_sum ar (v.array.map fun x => pow (ar.fabs x) p)) ∧
    (∀ (pw : PetscScalar → PetscScalar → PetscScalar) (q : PetscScalar) (w : VectorBase),
      w.array.length = w.N → Healthy w →
      (lp_norm pw w q).1 = .ok (pw (lp_norm_accumulated exactArith pw q w.array) (1 / q)) ∧
      lp_norm_accumulated exactArith pw q w.array = (w.array.map fun x => pw |x| q).sum) ∧
    (∀ (fl : Arith PetscScalar) (pw : PetscScalar → PetscScalar → PetscScalar),
      fl.zero = 0 → fl.fabs 3 = 3 → fl.fabs 4 = 4 → fl.div fl.one 2 = 1 / 2 →
      ExactSum fl 0 9 → ExactSum fl 9 16 → ExactSum fl 25 0 →
      ExactAt pw 3 2 → ExactAt pw 4 2 → ExactAt pw 25 (1 / 2) →
      lp_norm_accumulated fl pw 2 [3, 4] = 25 ∧
      (lp_norm_with fl pw (serialVector [3, 4] []) 2).1 = .ok 5) ∧
    (∀ pw : PetscScalar → PetscScalar → PetscScalar,
      ExactAt pw 3 2 → ExactAt pw 4 2 → ExactAt pw 25 (1 / 2) →
      lp_norm_accumulated exactArith pw 2 [3, 4] = 25 ∧
      (lp_norm pw (serialVector [3, 4] []) 2).1 = .ok 5) := by
  have hinst : ∀ (fl : Arith PetscScalar) (pw : PetscScalar → PetscScalar → PetscScalar),
      fl.zero = 0 → fl.fabs 3 = 3 → fl.fabs 4 = 4 → fl.div fl.one 2 = 1 / 2 →
      ExactSum fl 0 9 → ExactSum fl 9 16 → ExactSum fl 25 0 →
      ExactAt pw 3 2 → ExactAt pw 4 2 → ExactAt pw 25 (1 / 2) →
      lp_norm_accumulated fl pw 2 [3, 4] = 25 ∧
      (lp_norm_with fl pw (serialVector [3, 4] []) 2).1 = .ok 5 := by
    intro fl pw hz f3 f4 hd a1 a2 a3 h3 h4 h25
    have e3 : pw 3 2 = 9 := h3.eq_of rpow_three_two
    have e4 : pw 4 2 = 16 := h4.eq_of rpow_four_two
    have e25 : pw 25 (1 / 2) = 5 := h25.eq_of rpow_twentyfive_half
    unfold ExactSum at a1 a2 a3
    have b1 : fl.add 0 9 = 9 := by rw [a1]; norm_num
    have b2 : fl.add 9 16 = 25 := by rw [a2]; norm_num
    have b3 : fl.add 25 0 = 25 := by rw [a3]; norm_num
    have hacc : lp_norm_accumulated fl pw 2 [3, 4] = 25 := by
      have hm : (([3, 4] : List PetscScalar).map fun x => pw (fl.fabs x) 2) = [9, 16] := by
        simp only [List.map_cons, List.map_nil, f3, f4, e3, e4]
      have hs0 : strideEntries ([9, 16] : List PetscScalar) 0 = [] := by decide
      have hs1 : strideEntries ([9, 16] : List PetscScalar) 1 = [] := by decide
      have hs2 : strideEntries ([9, 16] : List PetscScalar) 2 = [] := by decide
      have hs3 : strideEntries ([9, 16] : List PetscScalar) 3 = [] := by decide
      have hr : remainderEntries ([9, 16] : List PetscScalar) = [9, 16] := by decide
      unfold lp_norm_accumulated
      rw [hm]
      simp only [four_way_sum, hs0, hs1, hs2, hs3, hr, accumulate, List.foldl_cons,
        List.foldl_nil, hz, b1, b2, b3]
    refine ⟨hacc, ?_⟩
    rw [lp_norm_with_eq fl pw 2 (serialVector [3, 4] []) rfl (by decide)]
    have : (serialVector [3, 4] []).array = [3, 4] := rfl
    rw [this, hacc, hd, e25]
  refine ⟨lp_norm_with_eq ar pow p v hfull hh, ?_, ?_, hinst, ?_⟩
  · intro hl
    unfold lp_norm_accumulated
    rw [four_way_sum_eq_plain_sum ar hl]
  · intro pw q w hf hw
    exact ⟨lp_norm_with_eq exactArith pw q w hf hw, lp_norm_accumulated_exact pw q w.array⟩
  · intro pw h3 h4 h25
    exact hinst exactArith pw rfl (by simp [exactArith]) (by simp [exactArith])
      (by simp [exactArith]) (by simp [ExactSum, exactArith]) (by simp [ExactSum, exactArith])
      (by simp [ExactSum, exactArith]) h3 h4 h25

/-- Witness of C11: the five entries `x_0, ..., x_4` and the exponent `p` in
the arithmetic of expressions, where the value returned shows the order of the
accumulation and the exponent of the last power. -/
theorem lp_norm_four_way_witness :
    (termVector 5).array.length = (termVector 5).N ∧ Healthy (termVector 5) ∧
    (lp_norm_with termArith Term.pow (termVector 5) .p).1
      = .ok (.pow
          (.add (.add (.add
            (.add (.add .zero (.pow (.fabs (.x 0)) .p)) (.pow (.fabs (.x 4)) .p))
            (.add .zero (.pow (.fabs (.x 1)) .p)))
            (.add .zero (.pow (.fabs (.x 2)) .p)))
            (.add .zero (.pow (.fabs (.x 3)) .p)))
          (.div .one .p)) :=
  ⟨by decide, by decide,
    (lp_norm_four_way termArith Term.pow .p (termVector 5) (by decide) (by decide)).1.trans
      (congrArg Except.ok (by decide))⟩


/-! ## print -/

/-- C12 as stated fails: `print` with `across = true` on `[1, 2, 3]` writes
`1 2 3 ` and one end of line; no blank line follows the line of values. -/
theorem print_across_no_blank_line :
    goodStream.good = true ∧
    (print sampleFormat (serialVector [1, 2, 3] []) goodStream 3 false true).1.1 = .ok () ∧
    (print sampleFormat (serialVector [1, 2, 3] []) goodStream 3 false true).2.text
      = ['1', ' ', '2', ' ', '3', ' ', '\n'] ∧
    endsWithBlankLine
      (print sampleFormat (serialVector [1, 2, 3] []) goodStream 3 false true).2.text = false := by
  obtain ⟨h1, h2⟩ := print_eq sampleFormat (serialVector [1, 2, 3] []) goodStream 3 false true
    rfl (by decide) rfl
  have h3 : (print sampleFormat (serialVector [1, 2, 3] []) goodStream 3 false true).2.text
      = ['1', ' ', '2', ' ', '3', ' ', '\n'] := by
    rw [h2]
    decide
  refine ⟨rfl, h1, h3, ?_⟩
  rw [h3]
  decide

/-- C12, amended: on a vector whose local array holds all `size()` entries and
whose backend calls succeed, with a good stream, `print` returns and appends
the formatted entries in index order, each followed by a blank (`across`) or
by an end of line (not `across`), and then one end of line.  On a non-empty
vector the output therefore ends with a blank line exactly when `across` is
false; with `across` the last end of line only closes the line of values. -/
theorem print_layout (fmt : Nat → FloatField → PetscScalar → List Char) (v : VectorBase)
    (out : ostream) (precision : Nat) (scientific across : Bool)
    (hfull : v.array.length = v.N) (hh : Healthy v) (hgood : out.good = true) :
    (print fmt v out precision scientific across).1.1 = .ok () ∧
    (print fmt v out precision scientific across).2.text
      = out.text ++ (if across then acrossLayout (fmt precision (floatfieldOf scientific)) v.array
          else columnLayout (fmt precision (floatfieldOf scientific)) v.array) ∧
    (v.array ≠ [] →
      endsWithBlankLine (print fmt v out precision scientific across).2.text = !across) := by
  obtain ⟨h1, h2⟩ := print_eq fmt v out precision scientific across hfull hh hgood
  refine ⟨h1, h2, ?_⟩
  intro hne
  rw [h2]
  cases across
  · simpa using endsWithBlankLine_column _ out.text v.array hne
  · simpa using endsWithBlankLine_across _ out.text v.array hne

/-- Witness of C12 (amended): `[1, 2, 3]` printed one value per line. -/
theorem print_layout_witness :
    (serialVector [1, 2, 3] []).array.length = (serialVector [1, 2, 3] []).N ∧
    Healthy (serialVector [1, 2, 3] []) ∧ goodStream.good = true ∧
    (print sampleFormat (serialVector [1, 2, 3] []) goodStream 3 false false).1.1 = .ok () ∧
    (print sampleFormat (serialVector [1, 2, 3] []) goodStream 3 false false).2.text
      = goodStream.text ++ (if false = true
          then acrossLayout (sampleFormat 3 (floatfieldOf false)) (serialVector [1, 2, 3] []).array
          else columnLayout (sampleFormat 3 (floatfieldOf false))
            (serialVector [1, 2, 3] []).array) ∧
    ((serialVector [1, 2, 3] []).array ≠ [] →
      endsWithBlankLine
        (print sampleFormat (serialVector [1, 2, 3] []) goodStream 3 false false).2.text
          = !false) :=
  ⟨rfl, by decide, rfl,
    print_layout sampleFormat (serialVector [1, 2, 3] []) goodStream 3 false false
      rfl (by decide) rfl⟩


/-! ## Scans and the size of the local array -/

/-- C13 as stated fails for the scans that stop early: the process that owns
`[0, 2)` of a vector of size 4 holds fewer than `size()` entries, yet
`all_zero` on the local entries `[0, 3]` and `is_non_negative` on `[1, -2]`
return `false` at the second entry and never read past the local array. -/
theorem short_circuit_scans_stay_inside :
    (mpiVector 4 0 [0, 3] []).array.length < (mpiVector 4 0 [0, 3] []).N ∧
    (all_zero (mpiVector 4 0 [0, 3] [])).1 = .ok false ∧
    (mpiVector 4 0 [1, -2] []).array.length < (mpiVector 4 0 [1, -2] []).N ∧
    (is_non_negative (mpiVector 4 0 [1, -2] [])).1 = .ok false := by
  refine ⟨by decide, ?_, by decide, ?_⟩
  · rw [all_zero_scan _ (by decide),
      scan_loop_short _ (mpiVector 4 0 [0, 3] []).array (mpiVector 4 0 [0, 3] []).N 2 0 rfl
        (by decide)]
    simp [mpiVector]
  · rw [is_non_negative_scan _ (by decide),
      scan_loop_short _ (mpiVector 4 0 [1, -2] []).array (mpiVector 4 0 [1, -2] []).N 2 0 rfl
        (by decide)]
    simp [mpiVector]

/-- C13, amended: with the backend calls succeeding and a local array of at
most `size()` entries, the scans of `mean_value`, `lp_norm` and `print` run
over the positions `0 .. size()-1` of the local array: they read outside it
exactly when the local array holds fewer than `size()` entries, that is they
stay inside exactly when `local_size() == size()`.  The scans of `all_zero` and
`is_non_negative` have the same bound `size()` but leave at the first nonzero
(negative) entry: they read outside the local array exactly when it holds
fewer than `size()` entries and none of them stops the scan, and return
`false` when one does. -/
theorem scans_use_global_size (pow : PetscScalar → PetscScalar → PetscScalar)
    (fmt : Nat → FloatField → PetscScalar → List Char) (p : PetscScalar) (precision : Nat)
    (scientific across : Bool) (v : VectorBase) (out : ostream)
    (hh : Healthy v) (hle : v.array.length ≤ v.N) (hgood : out.good = true) :
    ((mean_value v).1 = .error .OutOfBounds ↔ v.array.length < v.N) ∧
    ((lp_norm pow v p).1 = .error .OutOfBounds ↔ v.array.length < v.N) ∧
    ((print fmt v out precision scientific across).1.1 = .error .OutOfBounds
      ↔ v.array.length < v.N) ∧
    ((all_zero v).1 = .error .OutOfBounds
      ↔ v.array.length < v.N ∧ ∀ x ∈ v.array, x = 0) ∧
    ((is_non_negative v).1 = .error .OutOfBounds
      ↔ v.array.length < v.N ∧ ∀ x ∈ v.array, 0 ≤ x) ∧
    ((∃ x ∈ v.array, x ≠ 0) → (all_zero v).1 = .ok false) ∧
    ((∃ x ∈ v.array, x < 0) → (is_non_negative v).1 = .ok false) := by
  have hfull : ¬ v.array.length < v.N → v.array.length = v.N := fun h => by omega
  refine ⟨?_, ?_, ?_, ?_, ?_, ?_, ?_⟩
  · constructor
    · intro h
      by_contra hc
      rw [(mean_value_eq v (hfull hc) hh).1] at h
      cases h
    · exact mean_value_past_end v hh
  · constructor
    · intro h
      by_contra hc
      rw [lp_norm_eq pow p v (hfull hc) hh] at h
      cases h
    · exact lp_norm_past_end pow p v hh
  · constructor
    · intro h
      by_contra hc
      rw [(print_eq fmt v out precision scientific across (hfull hc) hh hgood).1] at h
      cases h
    · exact print_past_end fmt v out precision scientific across hh hgood
  · rw [all_zero_scan v hh, scan_loop_short _ v.array v.N v.array.length 0 (by omega) hle]
    by_cases hany : (List.drop 0 v.array).any (fun x => x != 0) = true
    · rw [if_pos hany]
      simp only [List.drop_zero, List.any_eq_true, bne_iff_ne, ne_eq] at hany
      obtain ⟨x, hx, hx0⟩ := hany
      constructor
      · intro h
        cases h
      · intro h
        exact absurd (h.2 x hx) hx0
    · rw [if_neg hany]
      simp only [List.drop_zero, List.any_eq_true, bne_iff_ne, ne_eq, not_exists, not_and,
        not_not] at hany
      by_cases hlt : v.array.length < v.N
      · simpa [hlt] using hany
      · simp [hlt]
  · rw [is_non_negative_scan v hh,
      scan_loop_short _ v.array v.N v.array.length 0 (by omega) hle]
    by_cases hany : (List.drop 0 v.array).any (fun x => decide (x < 0)) = true
    · rw [if_pos hany]
      simp only [List.drop_zero, List.any_eq_true, decide_eq_true_eq] at hany
      obtain ⟨x, hx, hx0⟩ := hany
      constructor
      · intro h
        cases h
      · intro h
        exact absurd (h.2 x hx) (not_le.mpr hx0)
    · rw [if_neg hany]
      simp only [List.drop_zero, List.any_eq_true, decide_eq_true_eq, not_exists, not_and,
        not_lt] at hany
      by_cases hlt : v.array.length < v.N
      · simpa [hlt] using hany
      · simp [hlt]
  · intro hex
    rw [all_zero_scan v hh, scan_loop_short _ v.array v.N v.array.length 0 (by omega) hle]
    have hany : (List.drop 0 v.array).any (fun x => x != 0) = true := by
      simpa using hex
    rw [if_pos hany]
  · intro hex
    rw [is_non_negative_scan v hh,
      scan_loop_short _ v.array v.N v.array.length 0 (by omega) hle]
    have hany : (List.drop 0 v.array).any (fun x => decide (x < 0)) = true := by
      simpa using hex
    rw [if_pos hany]

/-- Witness of C13 (amended): the process that owns `[0, 2)` of a vector of
size 4, with the local entries `[0, 0]`. -/
theorem scans_use_global_size_witness :
    Healthy (mpiVector 4 0 [0, 0] []) ∧
    (mpiVector 4 0 [0, 0] []).array.length ≤ (mpiVector 4 0 [0, 0] []).N ∧
    goodStream.good = true ∧
    ((mean_value (mpiVector 4 0 [0, 0] [])).1 = .error .OutOfBounds
      ↔ (mpiVector 4 0 [0, 0] []).array.length < (mpiVector 4 0 [0, 0] []).N) :=
  ⟨by decide, by decide, rfl,
    (scans_use_global_size samplePow sampleFormat 2 3 false true (mpiVector 4 0 [0, 0] [])
      goodStream (by decide) (by decide) rfl).1⟩

end PETScWrappers
